import Mathlib

/-!
# Bouldering league dashboard — aggregation & awards engine

Shallow embedding of the pure data-transformation pipeline of `main.js`
(`computePoints`, `aggregateClimberStats`, `aggregateTeamStats`,
`computeFunStats`, `sortLeaderboard`) together with theorems checking the
specification's claims about it.

## Modelling conventions

* JavaScript field values read from CSV rows are modelled by `JSVal`:
  `undef` (a missing property), an integer number, or a string.  JavaScript
  numbers are modelled as `Int`; the separate NaN value that arises from
  `parseInt` on garbage is modelled by `Option Int` (`none` = NaN) at the
  places where the code can produce it.
* `ToNumber` on strings (used by loose equality `==`) and `parseInt` are
  modelled for decimal integer literals (optional sign); exotic JS forms
  (hex literals, exponents, fractional strings) are outside the model —
  the CSV columns in question hold decimal integers or flags.
* JavaScript `Map` objects are modelled by insertion-ordered association
  lists over string keys (`JMap`), with `Map.set` either overwriting in
  place or appending, exactly as JS `Map` iteration order behaves.
* `Array.prototype.sort` with a consistent comparator is (since ES2019) a
  stable sort, whose output is uniquely determined by the comparator; it is
  modelled by a stable insertion sort with `le a b ↔ cmp a b ≤ 0`.
  `localeCompare` on lowercased names is modelled as code-point comparison
  (exact for the ASCII names at issue).
* Statements about floating-point ratios in the Efficiency King award are
  modelled over `ℚ`; the code's `0.001` tolerance exists precisely to make
  the comparison robust to rounding, so the rational idealization is the
  intended meaning.
-/

/-- A JavaScript value as it can appear in a parsed CSV row field:
a missing property, a number (integer model), or a string. -/
inductive JSVal where
  | undef : JSVal
  | num : Int → JSVal
  | str : String → JSVal
deriving DecidableEq, Repr, Inhabited

/-- JS whitespace (the forms relevant to trimming CSV field data). -/
def isWS (c : Char) : Bool :=
  c = ' ' || c = '\t' || c = '\n' || c = '\r'

/-- Value of a list of decimal digit characters. -/
def digitsToNat (cs : List Char) : Nat :=
  cs.foldl (fun a c => 10 * a + (c.toNat - 48)) 0

/-- Strip an optional leading sign, returning (isNegative, rest). -/
def splitSign : List Char → Bool × List Char
  | '-' :: cs => (true, cs)
  | '+' :: cs => (false, cs)
  | cs => (false, cs)

/-- JS `ToNumber` on a string, for decimal integer literals: trims
whitespace, maps the empty string to `0`, parses an optionally signed
all-digits remainder, and is `none` (NaN) otherwise. -/
def toNumber? (s : String) : Option Int :=
  let t := ((s.toList.dropWhile isWS).reverse.dropWhile isWS).reverse
  if t.isEmpty then some 0
  else
    let (neg, ds) := splitSign t
    if ds ≠ [] ∧ ds.all Char.isDigit then
      some (if neg then -(digitsToNat ds : Int) else (digitsToNat ds : Int))
    else none

/-- JS `ToNumber` on a `JSVal` (`undefined` converts to NaN). -/
def jsToNumber : JSVal → Option Int
  | .undef => none
  | .num n => some n
  | .str s => toNumber? s

/-- JS loose equality `v == n` against a number literal `n`: both sides are
converted to numbers and compared; NaN compares unequal to everything. -/
def jsEqNum (v : JSVal) (n : Int) : Bool :=
  jsToNumber v = some n

/-- JS truthiness of a field value (`undefined`, `0` and `""` are falsy). -/
def jsTruthy : JSVal → Bool
  | .undef => false
  | .num n => n ≠ 0
  | .str s => s ≠ ""

/-- JS `a || b`. -/
def jsOr (v d : JSVal) : JSVal :=
  if jsTruthy v then v else d

/-- JS `ToString` of a `JSVal`. -/
def jsToString : JSVal → String
  | .undef => "undefined"
  | .num n => toString n
  | .str s => s

/-- JS `parseInt` (radix 10): converts the argument to a string, skips
leading whitespace, reads an optional sign and the longest digit prefix;
`none` (NaN) when no digits are found. -/
def jsParseInt (v : JSVal) : Option Int :=
  let cs := (jsToString v).toList.dropWhile isWS
  let (neg, rest) := splitSign cs
  let ds := rest.takeWhile Char.isDigit
  if ds.isEmpty then none
  else some (if neg then -(digitsToNat ds : Int) else (digitsToNat ds : Int))

/-- JS `+` on numbers where either side may be NaN (NaN propagates). -/
def jsAdd : Option Int → Option Int → Option Int
  | some a, some b => some (a + b)
  | _, _ => none

/-- JS `a > b` on numbers with NaN: any comparison involving NaN is false. -/
def jsGtNum : Option Int → Option Int → Bool
  | some a, some b => b < a
  | _, _ => false

/-- JS `a < b` on numbers with NaN: any comparison involving NaN is false. -/
def jsLtNum : Option Int → Option Int → Bool
  | some a, some b => a < b
  | _, _ => false

-- ============================================
-- Row objects (shapes produced by the CSV parsing layer)
-- ============================================
/-- One row of `teams.csv` (all fields are trimmed strings). -/
structure RosterRow where
  team_id : String
  team_name : String
  climber_id : String
  climber_name : String
  division : String
deriving DecidableEq, Repr, Inhabited

/-- One row of `results.csv`.  The id fields are strings (they are used as
map keys and compared with `===`); the attempts/completion fields keep the
full `JSVal` shape because the engine applies `parseInt`, `||` and loose
`==` to them.  `comp_date` is carried but never read by the engine. -/
structure ResultRow where
  comp_id : String
  comp_date : String
  boulder_id : String
  climber_id : String
  attempts_to_zone : JSVal
  attempts_to_top : JSVal
  zone_completed : JSVal
  top_completed : JSVal
deriving DecidableEq, Repr, Inhabited

-- ============================================
-- JS `Map` model: insertion-ordered association list
-- ============================================
/-- A JavaScript `Map` with string keys: an insertion-ordered association
list.  `Map.set` overwrites in place when the key exists, else appends;
iteration (`forEach`) follows the list order. -/
abbrev JMap (α : Type) : Type := List (String × α)

/-- `Map.get`. -/
def jmGet {α : Type} (m : JMap α) (k : String) : Option α :=
  (m.find? (fun p => p.1 = k)).map Prod.snd

/-- `Map.has`. -/
def jmHas {α : Type} (m : JMap α) (k : String) : Bool :=
  (jmGet m k).isSome

/-- `Map.set`: overwrite in place if present, else append. -/
def jmSet {α : Type} (m : JMap α) (k : String) (v : α) : JMap α :=
  if jmHas m k then m.map (fun p => if p.1 = k then (p.1, v) else p)
  else m ++ [(k, v)]

/-- Mutate the value stored under `k` (models `m.get(k).field = …` /
`m.get(k)` followed by in-place object mutation); no-op when absent. -/
def jmModify {α : Type} (m : JMap α) (k : String) (f : α → α) : JMap α :=
  m.map (fun p => if p.1 = k then (p.1, f p.2) else p)

/-- Keys in iteration order. -/
def jmKeys {α : Type} (m : JMap α) : List String :=
  m.map Prod.fst

-- ============================================
-- Scoring and aggregation (main.js lines 460–613)
-- ============================================
/-- `computePoints` (main.js:460): 50 for `zone_completed == 1` plus 50 for
`top_completed == 1`, with JS loose equality. -/
def computePoints (result : ResultRow) : Int :=
  let zonePoints : Int := if jsEqNum result.zone_completed 1 then 50 else 0
  let topPoints : Int := if jsEqNum result.top_completed 1 then 50 else 0
  zonePoints + topPoints

/-- The attempts contributed by one result row (main.js:525):
`parseInt(r.attempts_to_zone || 0) + parseInt(r.attempts_to_top || 0)`;
`none` models NaN. -/
def rowAttempts (r : ResultRow) : Option Int :=
  jsAdd (jsParseInt (jsOr r.attempts_to_zone (.num 0)))
        (jsParseInt (jsOr r.attempts_to_top (.num 0)))

/-- Identity record built from a roster row (main.js:481). -/
structure ClimberInfo where
  climber_id : String
  climber_name : String
  team_id : String
  team_name : String
  division : String
deriving DecidableEq, Repr

/-- Per-competition bucket of a climber's breakdown. -/
structure CompBucket where
  points : Int
  attempts : Option Int
deriving DecidableEq, Repr

/-- Derived per-climber statistics (main.js:494). -/
structure ClimberStats where
  climber_id : String
  climber_name : String
  team_id : String
  team_name : String
  division : String
  total_points : Int
  total_attempts : Option Int
  comp_breakdown : JMap CompBucket
deriving DecidableEq, Repr

/-- The identity object created from one roster row (main.js:481). -/
def mkInfo (row : RosterRow) : ClimberInfo :=
  { climber_id := row.climber_id
    climber_name := row.climber_name
    team_id := row.team_id
    team_name := row.team_name
    division := row.division }

/-- First-seen-wins climber lookup built from the roster (main.js:479). -/
def buildClimberInfo (teams : List RosterRow) : JMap ClimberInfo :=
  teams.foldl
    (fun m row =>
      if jmHas m row.climber_id then m
      else jmSet m row.climber_id (mkInfo row))
    []

/-- Zero-seeded stats entry for one climber (main.js:494). -/
def seedStats (info : ClimberInfo) : ClimberStats :=
  { climber_id := info.climber_id
    climber_name := info.climber_name
    team_id := info.team_id
    team_name := info.team_name
    division := info.division
    total_points := 0
    total_attempts := some 0
    comp_breakdown := [] }

/-- Folding one result row into the stats map (main.js:512–539): unknown
climbers are skipped (with a console warning in the source); otherwise the
row's points and attempts are added to the totals and to the lazily created
per-competition bucket. -/
def applyResultUpd (result : ResultRow) (stats : ClimberStats) : ClimberStats :=
  let points := computePoints result
  let attempts := rowAttempts result
  let stats :=
    { stats with
      total_points := stats.total_points + points
      total_attempts := jsAdd stats.total_attempts attempts }
  let cb :=
    if jmHas stats.comp_breakdown result.comp_id then stats.comp_breakdown
    else jmSet stats.comp_breakdown result.comp_id ⟨0, some 0⟩
  { stats with
    comp_breakdown :=
      jmModify cb result.comp_id
        (fun b => ⟨b.points + points, jsAdd b.attempts attempts⟩) }

def applyResult (m : JMap ClimberStats) (result : ResultRow) : JMap ClimberStats :=
  if ¬ jmHas m result.climber_id then m
  else jmModify m result.climber_id (applyResultUpd result)

/-- `aggregateClimberStats` (main.js:475): seed one zeroed entry per
distinct roster climber, optionally filter the results to one competition,
then fold every result row in. -/
def aggregateClimberStats (teams : List RosterRow) (results : List ResultRow)
    (filterCompId : Option String) : JMap ClimberStats :=
  let climberInfo := buildClimberInfo teams
  let climberStats : JMap ClimberStats :=
    climberInfo.foldl (fun m p => jmSet m p.1 (seedStats p.2)) []
  let filteredResults :=
    match filterCompId with
    | some c => results.filter (fun r : ResultRow => r.comp_id == c)
    | none => results
  filteredResults.foldl applyResult climberStats

/-- Derived per-team statistics (main.js:557). -/
structure TeamStats where
  team_id : String
  team_name : String
  total_points : Int
  total_attempts : Option Int
  climbers : List String
deriving DecidableEq, Repr

/-- The team-initialization pass of `aggregateTeamStats` (main.js:555–570):
one zeroed entry per distinct roster team id, collecting each team's
distinct climber ids in roster order. -/
def initTeamStats (teams : List RosterRow) : JMap TeamStats :=
  teams.foldl
    (fun m row =>
      let m :=
        if jmHas m row.team_id then m
        else jmSet m row.team_id
          { team_id := row.team_id
            team_name := row.team_name
            total_points := 0
            total_attempts := some 0
            climbers := [] }
      jmModify m row.team_id (fun t =>
        if row.climber_id ∈ t.climbers then t
        else { t with climbers := t.climbers ++ [row.climber_id] }))
    []

/-- One step of the team-aggregation pass (main.js:573–581): fold one
climber's totals into their team; drop the climber when the team id has no
entry. -/
def teamStep (m : JMap TeamStats) (p : String × ClimberStats) : JMap TeamStats :=
  if jmHas m p.2.team_id then
    jmModify m p.2.team_id (fun t =>
      { t with
        total_points := t.total_points + p.2.total_points
        total_attempts := jsAdd t.total_attempts p.2.total_attempts })
  else m

/-- `aggregateTeamStats` (main.js:551): initialize one entry per distinct
roster team (collecting unique climber ids), then fold every climber's
totals into its team; climbers whose team id is absent are dropped. -/
def aggregateTeamStats (climberStats : JMap ClimberStats)
    (teams : List RosterRow) : JMap TeamStats :=
  climberStats.foldl teamStep (initTeamStats teams)

-- ============================================
-- Stable sorting (model of Array.prototype.sort with a comparator)
-- ============================================
/-- Stable insertion of `x` into `l`: `x` goes before the first element `y`
with `le x y` (so elements equivalent to `x` that were already in `l` stay
in front of nothing they preceded). -/
def insertLe {α : Type} (le : α → α → Bool) (x : α) : List α → List α
  | [] => [x]
  | y :: ys => if le x y then x :: y :: ys else y :: insertLe le x ys

/-- Stable insertion sort.  `Array.prototype.sort` with a consistent
comparator `cmp` is required (ES2019) to be a stable sort, and a stable
sort's output is uniquely determined by the induced total preorder
`le a b ↔ cmp a b ≤ 0`, so this is *the* function the JS engine computes. -/
def insSortBy {α : Type} (le : α → α → Bool) : List α → List α
  | [] => []
  | x :: xs => insertLe le x (insSortBy le xs)

-- ============================================
-- Leaderboard sorting (main.js 1186–1216)
-- ============================================
/-- An item fed to `sortLeaderboard`: total points, total attempts, and the
display name selected by the caller's `nameKey`.  (The comparator is only
well defined for real-number fields, so attempts are an `Int` here.) -/
structure LBItem where
  total_points : Int
  total_attempts : Int
  lbName : String
deriving DecidableEq, Repr, Inhabited

/-- Code-point comparison of two character lists. -/
def lexCmp : List Char → List Char → Ordering
  | [], [] => .eq
  | [], _ :: _ => .lt
  | _ :: _, [] => .gt
  | a :: as, b :: bs =>
      match compare a.toNat b.toNat with
      | .eq => lexCmp as bs
      | o => o

/-- `compareText` (main.js:1186): case-insensitive name comparison;
`localeCompare` is modelled as code-point order on the lowercased
strings. -/
def compareText (a b : String) : Ordering :=
  lexCmp (a.toList.map Char.toLower) (b.toList.map Char.toLower)

/-- The three-level comparator of `sortLeaderboard` (main.js:1202–1214),
as an `Ordering` (`.lt` means the first argument sorts first). -/
def cmpLB (a b : LBItem) : Ordering :=
  if a.total_points ≠ b.total_points then
    (if b.total_points < a.total_points then .lt else .gt)
  else if a.total_attempts ≠ b.total_attempts then
    (if a.total_attempts < b.total_attempts then .lt else .gt)
  else compareText a.lbName b.lbName

/-- `sortLeaderboard` (main.js:1201): `[...data].sort(cmp)` — a stable sort
of a fresh copy of the input. -/
def sortLeaderboard (data : List LBItem) : List LBItem :=
  insSortBy (fun a b => cmpLB a b ≠ .gt) data

-- ============================================
-- Fun stats / awards engine (main.js 641–1041)
-- ============================================
/-- `a ≤ b` on JS numbers, used as the `cmp a b ≤ 0` form of the numeric
sort comparators.  `none` (NaN) is placed below everything: the ECMAScript
sort order is unspecified for comparators that return NaN, so theorems
about the sorted output always assume NaN-free inputs. -/
def optLe : Option Int → Option Int → Bool
  | none, _ => true
  | some _, none => false
  | some a, some b => a ≤ b

/-- Winner record of the Most Attempts (Team) award. -/
structure TeamAward where
  team_name : String
  attempts : Option Int
deriving DecidableEq, Repr

/-- Accumulator entry of the per-boulder attempts map (main.js:683). -/
structure BoulderAcc where
  comp_id : String
  boulder_id : String
  attempts : Option Int
deriving DecidableEq, Repr

/-- Winner record of the boulder-attempts awards. -/
structure BoulderAward where
  boulder_id : String
  comp_id : String
  attempts : Option Int
deriving DecidableEq, Repr

/-- Candidate of the Try Hard award (main.js:744). -/
structure THCand where
  climber_name : String
  attempts : Option Int
  tops : Nat
deriving DecidableEq, Repr

/-- Winner record of the Try Hard award. -/
structure TryHardAward where
  climber_name : String
  attempts : Option Int
  tops : Nat
  is_tie : Bool
deriving DecidableEq, Repr

/-- Candidate of the Flash Master award (main.js:804). -/
structure FlashCand where
  climber_name : String
  flashes : Nat
  attempts : Option Int
deriving DecidableEq, Repr

/-- Winner record of the Flash Master award. -/
structure FlashAward where
  climber_name : String
  flashes : Nat
  attempts : Option Int
  is_tie : Bool
deriving DecidableEq, Repr

/-- Candidate of the Efficiency King award (main.js:841); the source field
`ratio` is spelled `ratio_val` here, holding the exact rational
`total_points / total_attempts` (the float display string is omitted). -/
structure EffCand where
  climber_name : String
  ratio_val : ℚ
deriving DecidableEq, Repr

/-- Winner record of the Efficiency King award. -/
structure EffAward where
  climber_name : String
  ratio_val : ℚ
  is_tie : Bool
deriving DecidableEq, Repr

/-- Entry of `compClimberTops` (main.js:893). -/
structure TopRec where
  climberId : String
  compId : String
  tops : Nat
deriving DecidableEq, Repr

/-- Entry of `perfectScoresByComp` / `allPerfectScores` (main.js:919). -/
structure PerfectEntry where
  climber_name : String
  climber_id : String
  comp_id : String
  boulders : Nat
  attempts : Option Int
deriving DecidableEq, Repr

/-- Winner record of the Perfect Score award.  The source leaves `is_tie`
and `winner_count` undefined on a single winner; they are normalized here
to `false` / `1`. -/
structure PerfectAward where
  climber_name : String
  comp_id : String
  boulders : Nat
  attempts : Option Int
  is_tie : Bool
  winner_count : Nat
  other_comps_count : Nat
deriving DecidableEq, Repr

/-- Candidate of the Zone Hero award (main.js:1010). -/
structure ZoneCand where
  climber_name : String
  zones : Nat
  attempts : Option Int
deriving DecidableEq, Repr

/-- Winner record of the Zone Hero award. -/
structure ZoneAward where
  climber_name : String
  zones : Nat
  attempts : Option Int
  is_tie : Bool
deriving DecidableEq, Repr

/-- The fixed-shape record of the eight fun awards. -/
structure FunStats where
  most_attempts_team : Option TeamAward
  most_attempts_boulder : Option BoulderAward
  least_attempts_boulder : Option BoulderAward
  try_hard_award : Option TryHardAward
  flash_master : Option FlashAward
  efficiency_king : Option EffAward
  perfect_score : Option PerfectAward
  zone_hero : Option ZoneAward
deriving DecidableEq, Repr

/-- Most Attempts (Team) (main.js:654–671): linear scan keeping the first
team that strictly exceeds the running maximum (which starts at `-1`). -/
def mostAttemptsTeamAward (teamStats : JMap TeamStats) : Option TeamAward :=
  if teamStats.length > 0 then
    let acc := teamStats.foldl
      (fun (acc : Option Int × Option TeamStats) p =>
        if jsGtNum p.2.total_attempts acc.1 then (p.2.total_attempts, some p.2)
        else acc)
      (some (-1), none)
    match acc.2 with
    | some maxTeam => some ⟨maxTeam.team_name, maxTeam.total_attempts⟩
    | none => none
  else none

/-- The per-(comp, boulder) summed-attempts map (main.js:676–692), keyed by
the template string `comp_id ++ ":" ++ boulder_id`. -/
def buildBoulderAttempts (results : List ResultRow) : JMap BoulderAcc :=
  results.foldl
    (fun m r =>
      let key := r.comp_id ++ ":" ++ r.boulder_id
      let attempts := rowAttempts r
      let m := if jmHas m key then m
               else jmSet m key ⟨r.comp_id, r.boulder_id, some 0⟩
      jmModify m key (fun b => { b with attempts := jsAdd b.attempts attempts }))
    []

/-- Most Attempts (Boulder) (main.js:694–711). -/
def mostAttemptsBoulderAward (results : List ResultRow) : Option BoulderAward :=
  if results.length > 0 then
    let ba := buildBoulderAttempts results
    let acc := ba.foldl
      (fun (acc : Option Int × Option BoulderAcc) p =>
        if jsGtNum p.2.attempts acc.1 then (p.2.attempts, some p.2) else acc)
      (some (-1), none)
    match acc.2 with
    | some b => some ⟨b.boulder_id, b.comp_id, b.attempts⟩
    | none => none
  else none

/-- Least Attempts (Boulder) (main.js:713–730): minimum over boulders with
strictly positive attempts; the running minimum starts at `Infinity`,
modelled by a `none` accumulator (every number is `< Infinity`; NaN fails
the `> 0` test before the `< min` test is reached). -/
def leastAttemptsBoulderAward (results : List ResultRow) : Option BoulderAward :=
  if results.length > 0 then
    let ba := buildBoulderAttempts results
    let acc := ba.foldl
      (fun (acc : Option (Option Int × BoulderAcc)) p =>
        if jsGtNum p.2.attempts (some 0)
            && (match acc with
                | none => true
                | some (m, _) => jsLtNum p.2.attempts m) then
          some (p.2.attempts, p.2)
        else acc)
      none
    match acc with
    | some (_, b) => some ⟨b.boulder_id, b.comp_id, b.attempts⟩
    | none => none
  else none

/-- Try Hard candidates (main.js:735–750): every climber with at least one
`top_completed == 1` result, carrying their total attempts and top count. -/
def tryHardCandidates (results : List ResultRow)
    (climberStats : JMap ClimberStats) : List THCand :=
  climberStats.foldl
    (fun cands p =>
      let climberResults :=
        results.filter (fun r : ResultRow => r.climber_id == p.2.climber_id)
      let hasTops := climberResults.any (fun r => jsEqNum r.top_completed 1)
      let topCount :=
        (climberResults.filter (fun r => jsEqNum r.top_completed 1)).length
      if hasTops then cands ++ [⟨p.2.climber_name, p.2.total_attempts, topCount⟩]
      else cands)
    []

/-- JavaScript strict equality `===` on possibly-NaN numbers, used by every
winner filter: `NaN === x` is false for every `x`, including NaN itself, so
a NaN reference value empties the winner list. -/
def optStrictEq : Option Int → Option Int → Bool
  | some a, some b => a == b
  | _, _ => false

/-- `cmp a b ≤ 0` for the Try Hard comparator (attempts desc, tops desc;
main.js:754–759). -/
def tryHardLe (a b : THCand) : Bool :=
  if a.attempts ≠ b.attempts then optLe b.attempts a.attempts
  else b.tops ≤ a.tops

/-- Try Hard Award (main.js:733–778).  The winner filter uses JS `===` on
the head's attempts (main.js:764): a NaN head empties `winners`, and the
tie branch then reads `winners[0].attempts` (main.js:772), a `TypeError`. -/
def tryHardAward (results : List ResultRow)
    (climberStats : JMap ClimberStats) : Except String (Option TryHardAward) :=
  if climberStats.length > 0 then
    match insSortBy tryHardLe (tryHardCandidates results climberStats) with
    | [] => pure none
    | c0 :: rest =>
      let sorted := c0 :: rest
      let winners :=
        sorted.filter (fun c => optStrictEq c.attempts c0.attempts
          && c.tops == c0.tops)
      match winners with
      | [] => .error "TypeError: try_hard winners[0] is undefined"
      | [w] => pure (some ⟨w.climber_name, w.attempts, w.tops, false⟩)
      | w :: _ :: _ =>
        pure (some ⟨String.intercalate " & " (winners.map (·.climber_name)),
              w.attempts, w.tops, true⟩)
  else pure none

/-- Flash counts (main.js:782–789): per-climber count of results with
`top_completed == 1 && attempts_to_top == 1`. -/
def flashCounts (results : List ResultRow) : JMap Nat :=
  results.foldl
    (fun m r =>
      if jsEqNum r.top_completed 1 ∧ jsEqNum r.attempts_to_top 1 then
        jmSet m r.climber_id ((jmGet m r.climber_id).getD 0 + 1)
      else m)
    []

/-- Scan for the maximum value of a count map starting from 0
(main.js:792–795 and 998–1001). -/
def maxVal (m : JMap Nat) : Nat :=
  m.foldl (fun acc p => if p.2 > acc then p.2 else acc) 0

/-- Flash Master candidates (main.js:799–811): entries of the count map at
the maximum, looked up in `climberStats` (unknown climbers are dropped). -/
def flashCandidates (results : List ResultRow)
    (climberStats : JMap ClimberStats) : List FlashCand :=
  let fc := flashCounts results
  let maxFlashes := maxVal fc
  fc.foldl
    (fun cands p =>
      if p.2 = maxFlashes then
        match jmGet climberStats p.1 with
        | some climber => cands ++ [⟨climber.climber_name, p.2, climber.total_attempts⟩]
        | none => cands
      else cands)
    []

/-- Flash Master (main.js:781–832).  When every climber holding the maximal
flash count is missing from `climberStats`, the candidate list is empty and
the source evaluates `candidates[0].attempts` on `undefined`, throwing a
`TypeError`; that crash is the `Except.error` case. -/
def flashMasterAward (results : List ResultRow)
    (climberStats : JMap ClimberStats) : Except String (Option FlashAward) :=
  if results.length > 0 ∧ climberStats.length > 0 then
    if maxVal (flashCounts results) > 0 then
      match insSortBy (fun a b => optLe a.attempts b.attempts)
          (flashCandidates results climberStats) with
      | [] => .error "TypeError: flash_master candidates[0] is undefined"
      | c0 :: rest =>
        let sorted := c0 :: rest
        let winners := sorted.filter (fun c => optStrictEq c.attempts c0.attempts)
        match winners with
        | [] => .error "TypeError: flash_master winners[0] is undefined"
        | [w] => pure (some ⟨w.climber_name, w.flashes, w.attempts, false⟩)
        | w :: _ :: _ =>
          pure (some ⟨String.intercalate " & " (winners.map (·.climber_name)),
                      w.flashes, w.attempts, true⟩)
    else pure none
  else pure none

/-- Efficiency King candidates (main.js:836–847): climbers with
`total_attempts > 0`, carrying the exact ratio `total_points / total_attempts`. -/
def effCandidates (climberStats : JMap ClimberStats) : List EffCand :=
  climberStats.foldl
    (fun cands p =>
      match p.2.total_attempts with
      | some a =>
        if 0 < a then
          cands ++ [⟨p.2.climber_name, (p.2.total_points : ℚ) / (a : ℚ)⟩]
        else cands
      | none => cands)
    []

/-- `cmp a b ≤ 0` for the ratio-descending comparator (main.js:851). -/
def ratioDescLe (a b : EffCand) : Bool :=
  decide (b.ratio_val ≤ a.ratio_val)

/-- The Efficiency King candidates in sorted (ratio-descending) order. -/
def effSorted (climberStats : JMap ClimberStats) : List EffCand :=
  insSortBy ratioDescLe (effCandidates climberStats)

/-- The Efficiency King winner set (main.js:854–855): all sorted candidates
whose ratio is within `0.001` of the best (head) ratio. -/
def effWinners (climberStats : JMap ClimberStats) : List EffCand :=
  match effSorted climberStats with
  | [] => []
  | c0 :: rest =>
    (c0 :: rest).filter (fun c => decide (|c.ratio_val - c0.ratio_val| < 1 / 1000))

/-- Efficiency King (main.js:834–871). -/
def efficiencyKingAward (climberStats : JMap ClimberStats) : Option EffAward :=
  if climberStats.length > 0 then
    match effSorted climberStats with
    | [] => none
    | _ :: _ =>
      match effWinners climberStats with
      | [] => none
      | [w] => some ⟨w.climber_name, w.ratio_val, false⟩
      | w :: _ :: _ =>
        some ⟨String.intercalate " & " ((effWinners climberStats).map (·.climber_name)),
              w.ratio_val, true⟩
  else none

/-- Per-competition sets of distinct boulder ids (main.js:884–888). -/
def psBoulderSets (results : List ResultRow) : JMap (List String) :=
  results.foldl
    (fun bc r =>
      let bc := if jmHas bc r.comp_id then bc else jmSet bc r.comp_id []
      jmModify bc r.comp_id
        (fun s => if r.boulder_id ∈ s then s else s ++ [r.boulder_id]))
    []

/-- Per-(comp, climber) top counts (main.js:890–896), keyed by the template
string `comp_id ++ ":" ++ climber_id`. -/
def psClimberTops (results : List ResultRow) : JMap TopRec :=
  results.foldl
    (fun ct r =>
      if jsEqNum r.top_completed 1 then
        let key := r.comp_id ++ ":" ++ r.climber_id
        let ct := if jmHas ct key then ct
                  else jmSet ct key ⟨r.climber_id, r.comp_id, 0⟩
        jmModify ct key (fun t => { t with tops := t.tops + 1 })
      else ct)
    []

/-- A climber's total attempts within one competition (main.js:909–914). -/
def compAttempts (results : List ResultRow) (climberId compId : String) : Option Int :=
  (results.filter
      (fun r : ResultRow => r.climber_id == climberId && r.comp_id == compId)).foldl
    (fun sum r => jsAdd sum (rowAttempts r)) (some 0)

/-- `perfectScoresByComp` (main.js:901–928): for every (comp, climber) top
record whose count equals the competition's distinct boulder count, a
perfect-score entry grouped under its comp (unknown climbers dropped). -/
def perfectGroups (results : List ResultRow)
    (climberStats : JMap ClimberStats) : JMap (List PerfectEntry) :=
  (psClimberTops results).foldl
    (fun m p =>
      let data := p.2
      let totalBoulders := ((jmGet (psBoulderSets results) data.compId).getD []).length
      if data.tops = totalBoulders ∧ 0 < totalBoulders then
        match jmGet climberStats data.climberId with
        | some climber =>
          let totalAttempts := compAttempts results data.climberId data.compId
          let m := if jmHas m data.compId then m else jmSet m data.compId []
          jmModify m data.compId
            (fun l => l ++ [⟨climber.climber_name, data.climberId, data.compId,
                             totalBoulders, totalAttempts⟩])
        | none => m
      else m)
    []

/-- `allPerfectScores` (main.js:933–936): the groups flattened in map
iteration order. -/
def perfectEntries (results : List ResultRow)
    (climberStats : JMap ClimberStats) : List PerfectEntry :=
  (perfectGroups results climberStats).foldl (fun acc p => acc ++ p.2) []

/-- First-occurrence deduplication (the contents of a JS `Set` built by
repeated `add`). -/
def firstDedup (l : List String) : List String :=
  l.foldl (fun acc x => if x ∈ acc then acc else acc ++ [x]) []

/-- `allPerfectScores` after the in-place sort by attempts (main.js:939). -/
def perfectSorted (results : List ResultRow)
    (climberStats : JMap ClimberStats) : List PerfectEntry :=
  insSortBy (fun a b => optLe a.attempts b.attempts)
    (perfectEntries results climberStats)

/-- `overallWinners` (main.js:945): every pooled entry whose attempts are
strictly (`===`) equal to the fewest attempts (the head of the sorted pool);
a NaN head matches nothing, not even itself. -/
def perfectWinners (results : List ResultRow)
    (climberStats : JMap ClimberStats) : List PerfectEntry :=
  match perfectSorted results climberStats with
  | [] => []
  | first :: rest =>
    (first :: rest).filter (fun w => optStrictEq w.attempts first.attempts)

/-- Perfect Score (main.js:873–984): pool every perfect clearance across
competitions, sort by attempts, and report all entries tying the fewest
attempts; `other_comps_count` counts the excluded perfect scores.  When the
`===` winner filter returns nothing (NaN fewest attempts), the source reads
`overallWinners[0].boulders` (main.js:975), a `TypeError`. -/
def perfectScoreAward (results : List ResultRow)
    (climberStats : JMap ClimberStats) : Except String (Option PerfectAward) :=
  if results.length > 0 ∧ climberStats.length > 0 then
    if (perfectGroups results climberStats).length > 0 then
      match perfectSorted results climberStats with
      | [] => .error "TypeError: allPerfectScores[0] is undefined"
      | first :: rest =>
        let sorted := first :: rest
        match perfectWinners results climberStats with
        | [] => .error "TypeError: overallWinners[0] is undefined"
        | [w] =>
          pure (some ⟨w.climber_name, w.comp_id, w.boulders, w.attempts,
                      false, 1, sorted.length - 1⟩)
        | w :: _ :: _ =>
          let overallWinners := perfectWinners results climberStats
          let comps := firstDedup (overallWinners.map (·.comp_id))
          if comps.length = 1 then
            pure (some ⟨String.intercalate " & " (overallWinners.map (·.climber_name)),
                        w.comp_id, w.boulders, w.attempts, true,
                        overallWinners.length, sorted.length - overallWinners.length⟩)
          else
            pure (some ⟨String.intercalate " & "
                          (overallWinners.map
                            (fun x => x.climber_name ++ " (Comp " ++ x.comp_id ++ ")")),
                        "Multiple", w.boulders, w.attempts, true,
                        overallWinners.length, sorted.length - overallWinners.length⟩)
    else pure none
  else pure none

/-- Zone-only counts (main.js:988–995): per-climber count of results with
`zone_completed == 1 && top_completed == 0` (JS loose equality on both). -/
def zoneOnlyCounts (results : List ResultRow) : JMap Nat :=
  results.foldl
    (fun m r =>
      if jsEqNum r.zone_completed 1 ∧ jsEqNum r.top_completed 0 then
        jmSet m r.climber_id ((jmGet m r.climber_id).getD 0 + 1)
      else m)
    []

/-- Zone Hero candidates (main.js:1005–1017). -/
def zoneCandidates (results : List ResultRow)
    (climberStats : JMap ClimberStats) : List ZoneCand :=
  let zc := zoneOnlyCounts results
  let maxZones := maxVal zc
  zc.foldl
    (fun cands p =>
      if p.2 = maxZones then
        match jmGet climberStats p.1 with
        | some climber => cands ++ [⟨climber.climber_name, p.2, climber.total_attempts⟩]
        | none => cands
      else cands)
    []

/-- The Zone Hero candidates after the in-place sort by attempts
(main.js:1020). -/
def zoneSorted (results : List ResultRow)
    (climberStats : JMap ClimberStats) : List ZoneCand :=
  insSortBy (fun a b => optLe a.attempts b.attempts)
    (zoneCandidates results climberStats)

/-- The Zone Hero winner set (main.js:1024): every candidate whose attempts
are strictly (`===`) equal to the fewest attempts (the head of the sorted
candidates); a NaN head matches nothing, not even itself. -/
def zoneWinners (results : List ResultRow)
    (climberStats : JMap ClimberStats) : List ZoneCand :=
  match zoneSorted results climberStats with
  | [] => []
  | c0 :: rest =>
    (c0 :: rest).filter (fun c => optStrictEq c.attempts c0.attempts)

/-- Zone Hero (main.js:986–1038).  Same unguarded `candidates[0].attempts`
access as Flash Master: an empty candidate list throws a `TypeError`; an
empty `===`-filtered winner list (NaN fewest attempts) likewise throws at
`winners[0].zones` (main.js:1031). -/
def zoneHeroAward (results : List ResultRow)
    (climberStats : JMap ClimberStats) : Except String (Option ZoneAward) :=
  if results.length > 0 ∧ climberStats.length > 0 then
    if maxVal (zoneOnlyCounts results) > 0 then
      match zoneSorted results climberStats with
      | [] => .error "TypeError: zone_hero candidates[0] is undefined"
      | _ :: _ =>
        match zoneWinners results climberStats with
        | [] => .error "TypeError: zone_hero winners[0] is undefined"
        | [w] => pure (some ⟨w.climber_name, w.zones, w.attempts, false⟩)
        | w :: _ :: _ =>
          pure (some ⟨String.intercalate " & "
                        ((zoneWinners results climberStats).map (·.climber_name)),
                      w.zones, w.attempts, true⟩)
    else pure none
  else pure none

/-- `computeFunStats` (main.js:641): the eight awards assembled into one
record; a `TypeError` thrown by any section aborts the whole computation.
(The source's unused `filterCompId` display parameter is omitted.) -/
def computeFunStats (results : List ResultRow) (climberStats : JMap ClimberStats)
    (teamStats : JMap TeamStats) : Except String FunStats := do
  let th ← tryHardAward results climberStats
  let fm ← flashMasterAward results climberStats
  let ps ← perfectScoreAward results climberStats
  let zh ← zoneHeroAward results climberStats
  pure
    { most_attempts_team := mostAttemptsTeamAward teamStats
      most_attempts_boulder := mostAttemptsBoulderAward results
      least_attempts_boulder := leastAttemptsBoulderAward results
      try_hard_award := th
      flash_master := fm
      efficiency_king := efficiencyKingAward climberStats
      perfect_score := ps
      zone_hero := zh }

-- ============================================
-- Claim C10 — sortLeaderboard does not mutate its argument
-- ============================================
/-- Heap-level model of one call `sortLeaderboard(data, nameKey)` where
`data` is the array stored at heap index `r`: the spread `[...data]`
(main.js:1202) reads the source array and allocates a fresh array holding a
copy, `.sort(...)` then mutates only that fresh array, and the call returns
the reference to the fresh array. -/
def sortLeaderboardCall (heap : List (List LBItem)) (r : Nat) :
    List (List LBItem) × Nat :=
  let copy := heap.getD r []
  let heap1 := heap ++ [copy]
  let r1 := heap.length
  let heap2 := heap1.set r1 (insSortBy (fun a b => cmpLB a b ≠ .gt) copy)
  (heap2, r1)

/-- Concrete roster for the C10 witness. -/
def c10Heap : List (List LBItem) := [[⟨100, 5, "b"⟩, ⟨50, 2, "a"⟩]]

-- ============================================
-- Claim C2 — the claimed "never throws" is violated by the code
-- ============================================
/-- One-climber roster for the C2 failing input. -/
def c2Teams : List RosterRow := [⟨"T1", "Alpha", "C1", "Ann", "Beginner"⟩]

/-- A single well-formed result row whose `climber_id` (`"C9"`) has no
roster entry, scoring a zone without a top. -/
def c2Results : List ResultRow :=
  [{ comp_id := "1", comp_date := "2024-01-01", boulder_id := "b1",
     climber_id := "C9",
     attempts_to_zone := .str "1", attempts_to_top := .str "0",
     zone_completed := .num 1, top_completed := .num 0 }]

-- ============================================
-- Claim C3 — unparseable attempts values
-- ============================================
/-- The per-field attempts value asserted by the claim: a missing or
unparseable value contributes 0, a parseable one its integer value. -/
def claimedAttVal (v : JSVal) : Int :=
  (jsParseInt (jsOr v (.num 0))).getD 0

/-- The per-row attempts total asserted by the claim. -/
def claimedRowAttempts (r : ResultRow) : Int :=
  claimedAttVal r.attempts_to_zone + claimedAttVal r.attempts_to_top

/-- Roster for the C3 counterexample. -/
def c3Teams : List RosterRow := [⟨"T1", "Alpha", "C1", "Ann", "Beginner"⟩]

/-- One result row for climber C1 whose `attempts_to_zone` is the non-empty
unparseable string "abc" (and `attempts_to_top` is "3"). -/
def c3Results : List ResultRow :=
  [{ comp_id := "1", comp_date := "2024-01-01", boulder_id := "b1",
     climber_id := "C1",
     attempts_to_zone := .str "abc", attempts_to_top := .str "3",
     zone_completed := .num 1, top_completed := .num 0 }]

/-- The result rows the aggregation folds into climber `k`'s entry: the
competition-filtered rows bearing that climber id, in order. -/
def processedRows (results : List ResultRow) (filterCompId : Option String)
    (k : String) : List ResultRow :=
  (match filterCompId with
   | some c => results.filter (fun r : ResultRow => r.comp_id == c)
   | none => results).filter (fun r : ResultRow => r.climber_id == k)

/-- Roster of the specification's worked example (§8). -/
def exTeams : List RosterRow :=
  [⟨"T1", "Alpha", "C1", "A", "Beginner"⟩, ⟨"T1", "Alpha", "C2", "B", "Beginner"⟩]

/-- Results of the specification's worked example (§8). -/
def exResults : List ResultRow :=
  [{ comp_id := "1", comp_date := "2024-01-01", boulder_id := "b1",
     climber_id := "C1", attempts_to_zone := .str "0", attempts_to_top := .str "5",
     zone_completed := .str "1", top_completed := .str "1" },
   { comp_id := "1", comp_date := "2024-01-01", boulder_id := "b1",
     climber_id := "C2", attempts_to_zone := .str "0", attempts_to_top := .str "10",
     zone_completed := .str "1", top_completed := .str "0" }]

/-- The stats entry the pipeline computes for climber C2 of the example. -/
def exStatsC2 : ClimberStats :=
  { climber_id := "C2", climber_name := "B", team_id := "T1", team_name := "Alpha"
    division := "Beginner", total_points := 50, total_attempts := some 10
    comp_breakdown := [("1", ⟨50, some 10⟩)] }

-- ============================================
-- Claim C3 (amended) — attempts defaulting and NaN propagation
-- ============================================
/-- An attempts field value that the source handles without producing NaN:
either falsy (missing, 0 or empty — replaced by `0` via `|| 0`) or a value
`parseInt` can read a leading integer from. -/
def attFieldOk (v : JSVal) : Bool :=
  !jsTruthy v || (jsParseInt v).isSome

/-- The team entry the pipeline computes for team T1 of the example. -/
def exTeamT1 : TeamStats :=
  { team_id := "T1", team_name := "Alpha", total_points := 150
    total_attempts := some 15, climbers := ["C1", "C2"] }

-- ============================================
-- Claim C8 — Zone Hero counting rule
-- ============================================
/-- The number of result rows of climber `c` with `zone_completed == 1` and
`top_completed == 0` (JS loose equality), as the code counts them. -/
def zoneCount (results : List ResultRow) (c : String) : Nat :=
  results.countP (fun r =>
    r.climber_id == c && (jsEqNum r.zone_completed 1 && jsEqNum r.top_completed 0))

/-- Concrete results for the C8 witness: C1 has two zone-only rows, C2 one. -/
def zw8Results : List ResultRow :=
  [⟨"1", "d", "b1", "C1", .str "2", .str "0", .num 1, .num 0⟩,
   ⟨"1", "d", "b2", "C1", .str "3", .str "0", .num 1, .num 0⟩,
   ⟨"1", "d", "b1", "C2", .str "3", .str "0", .num 1, .num 0⟩]

/-- Concrete stats map for the C8 witness. -/
def zw8Stats : JMap ClimberStats :=
  [("C1", ⟨"C1", "Ann", "T1", "Alpha", "Beginner", 100, some 5, []⟩),
   ("C2", ⟨"C2", "Bob", "T1", "Alpha", "Beginner", 50, some 3, []⟩)]

/-- The spec example's stats: ratios 1.998 (X), 2.000 (Y) and 2.0005 (Z). -/
def exEffStats : JMap ClimberStats :=
  [("X", ⟨"X", "X", "T", "T", "Beginner", 999, some 500, []⟩),
   ("Y", ⟨"Y", "Y", "T", "T", "Beginner", 2, some 1, []⟩),
   ("Z", ⟨"Z", "Z", "T", "T", "Beginner", 4001, some 2000, []⟩)]

/-- The number of result rows of climber `cl` in competition `comp` with
`top_completed == 1` (duplicates on the same boulder all count). -/
def topCount (results : List ResultRow) (cl comp : String) : Nat :=
  results.countP (fun r =>
    r.comp_id == comp && (r.climber_id == cl && jsEqNum r.top_completed 1))

/-- The number of distinct boulder ids appearing in competition `comp`. -/
def distinctBoulders (results : List ResultRow) (comp : String) : Nat :=
  (firstDedup ((results.filter (fun r : ResultRow => r.comp_id == comp)).map
    (fun r => r.boulder_id))).length

/-- A (comp:climber) top record qualifies for a perfect score and produces
entry `e` (the body of the main.js:901–928 loop, phrased over the counting
functions). -/
def psQualifies (results : List ResultRow) (stats : JMap ClimberStats)
    (p : String × TopRec) (e : PerfectEntry) : Prop :=
  ∃ c : ClimberStats,
    jmGet stats p.2.climberId = some c
    ∧ p.2.tops = distinctBoulders results p.2.compId
    ∧ 0 < distinctBoulders results p.2.compId
    ∧ e = ⟨c.climber_name, p.2.climberId, p.2.compId,
           distinctBoulders results p.2.compId,
           compAttempts results p.2.climberId p.2.compId⟩

def c6Results : List ResultRow :=
  [⟨"1", "2024-01-01", "b1", "CA", .num 1, .num 1, .num 1, .num 1⟩,
   ⟨"1", "2024-01-01", "b2", "CA", .num 1, .num 1, .num 1, .num 1⟩,
   ⟨"2", "2024-02-01", "b1", "CB", .num 1, .num 2, .num 1, .num 1⟩,
   ⟨"2", "2024-02-01", "b2", "CB", .num 1, .num 2, .num 1, .num 1⟩]

def c6Stats : JMap ClimberStats :=
  [("CA", ⟨"CA", "Alice", "T1", "Alpha", "Open", 200, some 4, []⟩),
   ("CB", ⟨"CB", "Bob", "T1", "Alpha", "Open", 200, some 6, []⟩)]

theorem mem_insertLe {α : Type} (le : α → α → Bool) (x : α) (l : List α)
    (z : α) : z ∈ insertLe le x l ↔ z = x ∨ z ∈ l := by
  induction l with
  | nil => simp [insertLe]
  | cons y ys ih =>
      rw [show insertLe le x (y :: ys)
            = if le x y then x :: y :: ys else y :: insertLe le x ys from rfl]
      by_cases h : le x y
      · rw [if_pos h]; simp
      · rw [if_neg h]; simp [ih]; tauto

theorem insertLe_perm {α : Type} (le : α → α → Bool) (x : α) (l : List α) :
    List.Perm (insertLe le x l) (x :: l) := by
  induction l with
  | nil => simp [insertLe]
  | cons y ys ih =>
      by_cases h : le x y
      · simp [insertLe, h]
      · simpa [insertLe, h] using
          (List.Perm.trans (List.Perm.cons y ih) (List.Perm.swap x y ys))

theorem insSortBy_perm {α : Type} (le : α → α → Bool) (l : List α) :
    List.Perm (insSortBy le l) l := by
  induction l with
  | nil => simp [insSortBy]
  | cons x xs ih =>
      exact List.Perm.trans (insertLe_perm le x (insSortBy le xs))
        (List.Perm.cons x ih)

theorem pairwise_insertLe {α : Type} {le : α → α → Bool}
    (htot : ∀ a b, le a b = true ∨ le b a = true)
    (htrans : ∀ a b c, le a b = true → le b c = true → le a c = true)
    (x : α) (l : List α)
    (hl : List.Pairwise (fun a b => le a b = true) l) :
    List.Pairwise (fun a b => le a b = true) (insertLe le x l) := by
  induction l with
  | nil => simp [insertLe]
  | cons y ys ih =>
      rcases hl with _ | ⟨hy, hys⟩
      rw [show insertLe le x (y :: ys)
            = if le x y then x :: y :: ys else y :: insertLe le x ys from rfl]
      by_cases h : le x y
      · rw [if_pos h]
        refine List.Pairwise.cons ?_ (List.Pairwise.cons hy hys)
        intro z hz
        rcases List.mem_cons.mp hz with rfl | hz
        · exact h
        · exact htrans x y z h (hy z hz)
      · rw [if_neg h]
        have hyx : le y x = true := (htot x y).resolve_left h
        refine List.Pairwise.cons ?_ (ih hys)
        intro z hz
        rcases (mem_insertLe le x ys z).mp hz with rfl | hz
        · exact hyx
        · exact hy z hz

theorem pairwise_insSortBy {α : Type} {le : α → α → Bool}
    (htot : ∀ a b, le a b = true ∨ le b a = true)
    (htrans : ∀ a b c, le a b = true → le b c = true → le a c = true)
    (l : List α) :
    List.Pairwise (fun a b => le a b = true) (insSortBy le l) := by
  induction l with
  | nil => simp [insSortBy]
  | cons x xs ih => exact pairwise_insertLe htot htrans x (insSortBy le xs) ih

/-- The head of the sorted list is `le`-below every element of the input. -/
theorem head_insSortBy_le {α : Type} {le : α → α → Bool}
    (htot : ∀ a b, le a b = true ∨ le b a = true)
    (htrans : ∀ a b c, le a b = true → le b c = true → le a c = true)
    (l : List α) (h : α) (t : List α) (hs : insSortBy le l = h :: t) :
    ∀ z ∈ l, le h z = true := by
  intro z hz
  have hmem : z ∈ insSortBy le l :=
    (insSortBy_perm le l).mem_iff.mpr hz
  rw [hs] at hmem
  rcases List.mem_cons.mp hmem with rfl | hmem
  · exact (htot z z).elim id id
  · have hp := pairwise_insSortBy htot htrans l
    rw [hs] at hp
    exact List.rel_of_pairwise_cons hp hmem

-- ============================================
-- Association-map lemmas
-- ============================================
theorem jmGet_cons {α : Type} (p : String × α) (m : JMap α) (k : String) :
    jmGet (p :: m) k = if p.1 = k then some p.2 else jmGet m k := by
  by_cases h : p.1 = k <;> simp [jmGet, List.find?_cons, h]

theorem jmHas_iff_mem_keys {α : Type} (m : JMap α) (k : String) :
    jmHas m k = true ↔ k ∈ jmKeys m := by
  induction m with
  | nil => simp [jmHas, jmGet, jmKeys]
  | cons p ps ih =>
      show jmHas (p :: ps) k = true ↔ k ∈ p.1 :: jmKeys ps
      by_cases h : p.1 = k
      · simp [jmHas, jmGet_cons, h]
      · have hstep : jmHas (p :: ps) k = jmHas ps k := by
          simp [jmHas, jmGet_cons, h]
        rw [hstep, List.mem_cons, ih]
        constructor
        · exact Or.inr
        · intro hh
          rcases hh with hh | hh
          · exact absurd hh.symm h
          · exact hh

theorem jmModify_cons {α : Type} (p : String × α) (m : JMap α) (k : String)
    (f : α → α) :
    jmModify (p :: m) k f
      = (if p.1 = k then (p.1, f p.2) else p) :: jmModify m k f := rfl

theorem jmGet_modify_self {α : Type} (m : JMap α) (k : String) (f : α → α) :
    jmGet (jmModify m k f) k = (jmGet m k).map f := by
  induction m with
  | nil => rfl
  | cons p ps ih =>
      rw [jmModify_cons]
      by_cases h : p.1 = k
      · rw [if_pos h, jmGet_cons, jmGet_cons]
        simp [h]
      · rw [if_neg h, jmGet_cons, jmGet_cons, if_neg h, if_neg h]
        exact ih

theorem jmGet_modify_ne {α : Type} (m : JMap α) (k : String) (f : α → α)
    (k' : String) (h : k' ≠ k) :
    jmGet (jmModify m k f) k' = jmGet m k' := by
  induction m with
  | nil => rfl
  | cons p ps ih =>
      rw [jmModify_cons]
      by_cases hp : p.1 = k
      · rw [if_pos hp, jmGet_cons, jmGet_cons]
        have hpk : ¬ p.1 = k' := by rw [hp]; exact fun hk => h hk.symm
        rw [if_neg hpk, if_neg hpk]
        exact ih
      · rw [if_neg hp, jmGet_cons, jmGet_cons]
        by_cases hq : p.1 = k' <;> simp [hq, ih]

theorem jmKeys_modify {α : Type} (m : JMap α) (k : String) (f : α → α) :
    jmKeys (jmModify m k f) = jmKeys m := by
  induction m with
  | nil => rfl
  | cons p ps ih =>
      rw [jmModify_cons]
      by_cases h : p.1 = k
      · rw [if_pos h]
        show p.1 :: jmKeys (jmModify ps k f) = p.1 :: jmKeys ps
        rw [ih]
      · rw [if_neg h]
        show p.1 :: jmKeys (jmModify ps k f) = p.1 :: jmKeys ps
        rw [ih]

theorem jmGet_append_single {α : Type} (m : JMap α) (k k' : String) (v : α) :
    jmGet (m ++ [(k, v)]) k'
      = match jmGet m k' with
        | some w => some w
        | none => if k = k' then some v else none := by
  induction m with
  | nil => simp [jmGet_cons, jmGet]
  | cons p ps ih =>
      rw [List.cons_append, jmGet_cons, jmGet_cons]
      by_cases h : p.1 = k' <;> simp [h, ih]

theorem jmGet_overwrite {α : Type} (m : JMap α) (k : String) (v : α)
    (h : (jmGet m k).isSome = true) :
    jmGet (m.map (fun p => if p.1 = k then (p.1, v) else p)) k = some v := by
  induction m with
  | nil => simp [jmGet] at h
  | cons p ps ih =>
      rw [List.map_cons]
      by_cases hp : p.1 = k
      · rw [if_pos hp, jmGet_cons]
        simp [hp]
      · rw [if_neg hp, jmGet_cons, if_neg hp]
        rw [jmGet_cons, if_neg hp] at h
        exact ih h

theorem jmGet_set_self {α : Type} (m : JMap α) (k : String) (v : α) :
    jmGet (jmSet m k v) k = some v := by
  unfold jmSet
  by_cases h : jmHas m k
  · rw [if_pos h]
    exact jmGet_overwrite m k v h
  · rw [if_neg h, jmGet_append_single]
    unfold jmHas at h
    rcases hm : jmGet m k with _ | w
    · simp
    · rw [hm] at h; simp at h

theorem jmGet_overwrite_ne {α : Type} (m : JMap α) (k : String) (v : α)
    (k' : String) (h : k' ≠ k) :
    jmGet (m.map (fun p => if p.1 = k then (p.1, v) else p)) k' = jmGet m k' := by
  induction m with
  | nil => rfl
  | cons p ps ih =>
      rw [List.map_cons]
      by_cases hp : p.1 = k
      · rw [if_pos hp, jmGet_cons, jmGet_cons]
        have hpk : ¬ p.1 = k' := by rw [hp]; exact fun hk => h hk.symm
        rw [if_neg hpk, if_neg hpk]
        exact ih
      · rw [if_neg hp, jmGet_cons, jmGet_cons]
        by_cases hq : p.1 = k' <;> simp [hq, ih]

theorem jmGet_set_ne {α : Type} (m : JMap α) (k : String) (v : α)
    (k' : String) (h : k' ≠ k) :
    jmGet (jmSet m k v) k' = jmGet m k' := by
  unfold jmSet
  by_cases hh : jmHas m k
  · rw [if_pos hh]
    exact jmGet_overwrite_ne m k v k' h
  · rw [if_neg hh, jmGet_append_single]
    rcases hm : jmGet m k' with _ | w
    · have hk : ¬ k = k' := fun hk => h hk.symm
      simp [hk]
    · simp

theorem jmKeys_map_overwrite {α : Type} (m : JMap α) (k : String) (v : α) :
    jmKeys (m.map (fun p => if p.1 = k then (p.1, v) else p)) = jmKeys m := by
  induction m with
  | nil => rfl
  | cons p ps ih =>
      rw [List.map_cons]
      by_cases hp : p.1 = k
      · rw [if_pos hp]
        show p.1 :: jmKeys (ps.map _) = p.1 :: jmKeys ps
        rw [ih]
      · rw [if_neg hp]
        show p.1 :: jmKeys (ps.map _) = p.1 :: jmKeys ps
        rw [ih]

theorem jmKeys_set {α : Type} (m : JMap α) (k : String) (v : α) :
    jmKeys (jmSet m k v)
      = if jmHas m k then jmKeys m else jmKeys m ++ [k] := by
  unfold jmSet
  by_cases hh : jmHas m k
  · rw [if_pos hh, if_pos hh]
    exact jmKeys_map_overwrite m k v
  · rw [if_neg hh, if_neg hh]
    simp [jmKeys]

-- ============================================
-- Claim C1 — computePoints
-- ============================================
/-- C1: for every result row `computePoints` returns exactly
50·(zone loosely equal to 1) + 50·(top loosely equal to 1), hence a value in
{0, 50, 100}, with no error case; moreover the loose-equality-to-1 test
accepts the number 1 and the string "1" and rejects 0, "0", the empty
string and a missing value. -/
theorem computePoints_spec (r : ResultRow) :
    computePoints r
      = (if jsEqNum r.zone_completed 1 then 50 else 0)
        + (if jsEqNum r.top_completed 1 then 50 else 0)
    ∧ (computePoints r = 0 ∨ computePoints r = 50 ∨ computePoints r = 100)
    ∧ (∀ v ∈ [JSVal.num 1, JSVal.str "1"], jsEqNum v 1 = true)
    ∧ (∀ v ∈ [JSVal.num 0, JSVal.str "0", JSVal.str "", JSVal.undef],
        jsEqNum v 1 = false) := by
  refine ⟨rfl, ?_, by decide, by decide⟩
  unfold computePoints
  cases jsEqNum r.zone_completed 1 <;> cases jsEqNum r.top_completed 1 <;> simp

/-- C10: `sortLeaderboard` does not mutate its argument — after the call
the input array still holds the same elements in the same order, the result
is a fresh array (a different reference), and the fresh array holds the
sorted copy. -/
theorem sortLeaderboard_no_mutation (heap : List (List LBItem)) (r : Nat)
    (hr : r < heap.length) :
    (sortLeaderboardCall heap r).1.getD r [] = heap.getD r []
    ∧ (sortLeaderboardCall heap r).2 ≠ r
    ∧ (sortLeaderboardCall heap r).1.getD (sortLeaderboardCall heap r).2 []
        = sortLeaderboard (heap.getD r []) := by
  have hset :
      (sortLeaderboardCall heap r).1
        = heap ++ [insSortBy (fun a b => cmpLB a b ≠ .gt) (heap.getD r [])] := by
    show (heap ++ [heap.getD r []]).set heap.length _ = _
    rw [List.set_append]
    simp
  refine ⟨?_, ?_, ?_⟩
  · rw [hset]
    exact List.getD_append heap _ [] r hr
  · exact fun hc => absurd (hc ▸ hr) (lt_irrefl _)
  · show (sortLeaderboardCall heap r).1.getD heap.length [] = _
    rw [hset, List.getD_append_right heap _ [] heap.length (le_refl _)]
    simp [sortLeaderboard]

theorem sortLeaderboard_no_mutation_witness :
    (sortLeaderboardCall c10Heap 0).1.getD 0 [] = c10Heap.getD 0 []
    ∧ (sortLeaderboardCall c10Heap 0).2 ≠ 0
    ∧ (sortLeaderboardCall c10Heap 0).1.getD (sortLeaderboardCall c10Heap 0).2 []
        = sortLeaderboard (c10Heap.getD 0 []) :=
  sortLeaderboard_no_mutation c10Heap 0 (by decide)

/-- C2 fails on the code: on a well-formed result row whose `climber_id` is
absent from the roster, `aggregateClimberStats` does skip the row, but
`computeFunStats` then throws a `TypeError` — the Zone Hero section counts
the unknown climber's zone, finds `maxZones = 1 > 0`, drops the unknown
climber while building `candidates`, and dereferences
`candidates[0].attempts` on an empty array (main.js:1023).  The claimed
"logged and skipped, never fatal" behaviour does not hold. -/
theorem computeFunStats_throws_on_unknown_climber :
    computeFunStats c2Results (aggregateClimberStats c2Teams c2Results none)
      (aggregateTeamStats (aggregateClimberStats c2Teams c2Results none) c2Teams)
    = .error "TypeError: zone_hero candidates[0] is undefined" := by rfl

/-- C3 fails on the code: `parseInt("abc" || 0)` is `parseInt("abc")`,
which is NaN, and `NaN + 3` is NaN, so the climber's `total_attempts`
becomes NaN (`none` in the model) — whereas the claim asserts the
unparseable value contributes 0, which would give the total 3. -/
theorem nan_propagates_counterexample :
    ((jmGet (aggregateClimberStats c3Teams c3Results none) "C1").map
        (fun v => v.total_attempts)) = some none
    ∧ claimedRowAttempts (c3Results.getD 0 default) = 3 := by
  exact ⟨rfl, rfl⟩

-- ============================================
-- Aggregation fold lemmas
-- ============================================
theorem jmHas_append_single {α : Type} (m : JMap α) (k k' : String) (v : α) :
    jmHas (m ++ [(k, v)]) k' = (jmHas m k' || k = k') := by
  unfold jmHas
  rw [jmGet_append_single]
  rcases jmGet m k' with _ | w
  · by_cases h : k = k' <;> simp [h]
  · simp

theorem jmGet_mapSnd {α β : Type} (m : JMap α) (g : α → β) (k : String) :
    jmGet (m.map (fun p => (p.1, g p.2))) k = (jmGet m k).map g := by
  induction m with
  | nil => rfl
  | cons p ps ih =>
      rw [List.map_cons, jmGet_cons, jmGet_cons]
      by_cases h : p.1 = k <;> simp [h, ih]

/-- A fold of `jmSet` with pairwise-distinct fresh keys is plain append. -/
theorem jmFresh_foldl_eq_map {α β : Type} (info : JMap α) (g : α → β)
    (m0 : JMap β)
    (hdisj : ∀ p ∈ info, jmHas m0 p.1 = false)
    (hnd : (jmKeys info).Nodup) :
    info.foldl (fun m p => jmSet m p.1 (g p.2)) m0
      = m0 ++ info.map (fun p => (p.1, g p.2)) := by
  induction info generalizing m0 with
  | nil => simp
  | cons p ps ih =>
      have hp0 : jmHas m0 p.1 = false := hdisj p (List.mem_cons_self p ps)
      have hstep : jmSet m0 p.1 (g p.2) = m0 ++ [(p.1, g p.2)] := by
        unfold jmSet
        rw [hp0]
        simp
      rw [List.foldl_cons, hstep]
      rw [jmKeys, List.map_cons, List.nodup_cons] at hnd
      have hdisj' : ∀ q ∈ ps, jmHas (m0 ++ [(p.1, g p.2)]) q.1 = false := by
        intro q hq
        rw [jmHas_append_single]
        have h1 : jmHas m0 q.1 = false := hdisj q (List.mem_cons_of_mem p hq)
        have h2 : ¬ p.1 = q.1 := by
          intro hc
          exact hnd.1 (hc ▸ List.mem_map_of_mem Prod.fst hq)
        simp [h1, h2]
      rw [ih (m0 ++ [(p.1, g p.2)]) hdisj' hnd.2]
      simp

theorem nodup_keys_buildClimberInfo_aux (teams : List RosterRow)
    (m0 : JMap ClimberInfo) (h0 : (jmKeys m0).Nodup) :
    (jmKeys (teams.foldl
      (fun m row => if jmHas m row.climber_id then m
                    else jmSet m row.climber_id (mkInfo row)) m0)).Nodup := by
  induction teams generalizing m0 with
  | nil => exact h0
  | cons row rest ih =>
      rw [List.foldl_cons]
      by_cases hh : jmHas m0 row.climber_id
      · rw [if_pos hh]
        exact ih m0 h0
      · rw [if_neg hh]
        refine ih _ ?_
        rw [jmKeys_set, if_neg hh]
        have : row.climber_id ∉ jmKeys m0 := by
          intro hc
          exact hh ((jmHas_iff_mem_keys m0 row.climber_id).mpr hc)
        simp [List.nodup_append, h0, this]

theorem nodup_keys_buildClimberInfo (teams : List RosterRow) :
    (jmKeys (buildClimberInfo teams)).Nodup :=
  nodup_keys_buildClimberInfo_aux teams [] (by simp [jmKeys])

/-- First-seen wins: the info map looks up the first roster row bearing a
given climber id. -/
theorem buildClimberInfo_get_aux (teams : List RosterRow)
    (m0 : JMap ClimberInfo) (k : String) :
    jmGet (teams.foldl
      (fun m row => if jmHas m row.climber_id then m
                    else jmSet m row.climber_id (mkInfo row)) m0) k
      = match jmGet m0 k with
        | some v => some v
        | none => (teams.find? (fun row : RosterRow => row.climber_id == k)).map mkInfo := by
  induction teams generalizing m0 with
  | nil =>
      rcases h : jmGet m0 k with _ | v <;> simp [h]
  | cons row rest ih =>
      rw [List.foldl_cons]
      by_cases hh : jmHas m0 row.climber_id
      · rw [if_pos hh, ih m0]
        rcases h0 : jmGet m0 k with _ | v
        · have hne : ¬ row.climber_id = k := by
            intro hc
            rw [hc] at hh
            unfold jmHas at hh
            rw [h0] at hh
            simp at hh
          have hrk : (fun r : RosterRow => r.climber_id == k) row = false := by
            simp [hne]
          simp [List.find?_cons, hrk]
        · rfl
      · rw [if_neg hh, ih _]
        by_cases hk : row.climber_id = k
        · have h0 : jmGet m0 k = none := by
            rcases hg : jmGet m0 k with _ | v
            · rfl
            · unfold jmHas at hh
              rw [hk, hg] at hh
              simp at hh
          have hrk : (fun r : RosterRow => r.climber_id == k) row = true := by
            simp [hk]
          rw [hk, jmGet_set_self, h0]
          simp [List.find?_cons, hrk]
        · rw [jmGet_set_ne m0 row.climber_id _ k (fun hc => hk hc.symm)]
          rcases h0 : jmGet m0 k with _ | v
          · have hrk : (fun r : RosterRow => r.climber_id == k) row = false := by
              simp [hk]
            simp [List.find?_cons, hrk]
          · rfl

theorem applyResultUpd_total_attempts (r : ResultRow) (s : ClimberStats) :
    (applyResultUpd r s).total_attempts = jsAdd s.total_attempts (rowAttempts r) := rfl

theorem applyResultUpd_total_points (r : ResultRow) (s : ClimberStats) :
    (applyResultUpd r s).total_points = s.total_points + computePoints r := rfl

theorem applyResultUpd_identity (r : ResultRow) (s : ClimberStats) :
    (applyResultUpd r s).climber_id = s.climber_id
    ∧ (applyResultUpd r s).climber_name = s.climber_name
    ∧ (applyResultUpd r s).team_id = s.team_id
    ∧ (applyResultUpd r s).team_name = s.team_name
    ∧ (applyResultUpd r s).division = s.division :=
  ⟨rfl, rfl, rfl, rfl, rfl⟩

theorem jmGet_applyResult_ne (m : JMap ClimberStats) (r : ResultRow)
    (k : String) (h : k ≠ r.climber_id) :
    jmGet (applyResult m r) k = jmGet m k := by
  unfold applyResult
  by_cases hh : jmHas m r.climber_id
  · simp only [hh, not_true, ite_false]
    exact jmGet_modify_ne m r.climber_id _ k h
  · simp [hh]

theorem jmGet_applyResult_self (m : JMap ClimberStats) (r : ResultRow)
    (v : ClimberStats) (h : jmGet m r.climber_id = some v) :
    jmGet (applyResult m r) r.climber_id = some (applyResultUpd r v) := by
  unfold applyResult
  have hh : jmHas m r.climber_id = true := by
    unfold jmHas
    rw [h]
    rfl
  simp only [hh, not_true, ite_false]
  rw [jmGet_modify_self, h]
  rfl

theorem jmKeys_applyResult (m : JMap ClimberStats) (r : ResultRow) :
    jmKeys (applyResult m r) = jmKeys m := by
  unfold applyResult
  by_cases hh : jmHas m r.climber_id
  · simp only [hh, not_true, ite_false]
    exact jmKeys_modify m r.climber_id _
  · simp [hh]

theorem jmKeys_applyFold (rs : List ResultRow) (m : JMap ClimberStats) :
    jmKeys (rs.foldl applyResult m) = jmKeys m := by
  induction rs generalizing m with
  | nil => rfl
  | cons r rest ih =>
      rw [List.foldl_cons, ih, jmKeys_applyResult]

/-- Folding result rows acts on a present climber's entry as the pure fold
of `applyResultUpd` over their own rows, in order. -/
theorem applyFold_get (rs : List ResultRow) (m : JMap ClimberStats)
    (k : String) (v0 : ClimberStats) (h0 : jmGet m k = some v0) :
    jmGet (rs.foldl applyResult m) k
      = some ((rs.filter (fun r : ResultRow => r.climber_id == k)).foldl
          (fun s r => applyResultUpd r s) v0) := by
  induction rs generalizing m v0 with
  | nil => simpa using h0
  | cons r rest ih =>
      rw [List.foldl_cons, List.filter_cons]
      by_cases hc : r.climber_id = k
      · have hbeq : (r.climber_id == k) = true := by simp [hc]
        rw [hbeq, if_pos rfl, List.foldl_cons]
        have h1 : jmGet (applyResult m r) k = some (applyResultUpd r v0) := by
          rw [← hc] at h0 ⊢
          exact jmGet_applyResult_self m r v0 h0
        exact ih (applyResult m r) (applyResultUpd r v0) h1
      · have hbeq : (r.climber_id == k) = false := by simp [hc]
        rw [hbeq]
        simp only [Bool.false_eq_true, if_false]
        have h1 : jmGet (applyResult m r) k = some v0 := by
          rw [jmGet_applyResult_ne m r k (fun hk => hc hk.symm)]
          exact h0
        exact ih (applyResult m r) v0 h1

theorem foldUpd_total_attempts (rs : List ResultRow) (v0 : ClimberStats) :
    (rs.foldl (fun s r => applyResultUpd r s) v0).total_attempts
      = rs.foldl (fun a r => jsAdd a (rowAttempts r)) v0.total_attempts := by
  induction rs generalizing v0 with
  | nil => rfl
  | cons r rest ih =>
      rw [List.foldl_cons, List.foldl_cons, ih, applyResultUpd_total_attempts]

theorem foldUpd_total_points (rs : List ResultRow) (v0 : ClimberStats) :
    (rs.foldl (fun s r => applyResultUpd r s) v0).total_points
      = v0.total_points + (rs.map computePoints).sum := by
  induction rs generalizing v0 with
  | nil => simp
  | cons r rest ih =>
      rw [List.foldl_cons, List.map_cons, List.sum_cons, ih,
        applyResultUpd_total_points]
      ring

theorem foldUpd_identity (rs : List ResultRow) (v0 : ClimberStats) :
    (rs.foldl (fun s r => applyResultUpd r s) v0).climber_id = v0.climber_id
    ∧ (rs.foldl (fun s r => applyResultUpd r s) v0).climber_name = v0.climber_name
    ∧ (rs.foldl (fun s r => applyResultUpd r s) v0).team_id = v0.team_id
    ∧ (rs.foldl (fun s r => applyResultUpd r s) v0).team_name = v0.team_name
    ∧ (rs.foldl (fun s r => applyResultUpd r s) v0).division = v0.division := by
  induction rs generalizing v0 with
  | nil => exact ⟨rfl, rfl, rfl, rfl, rfl⟩
  | cons r rest ih =>
      rw [List.foldl_cons]
      exact ih (applyResultUpd r v0)

/-- The seeded stats map is the info map with every value zero-seeded. -/
theorem seeded_get (teams : List RosterRow) (k : String) :
    jmGet ((buildClimberInfo teams).foldl
        (fun m p => jmSet m p.1 (seedStats p.2)) []) k
      = (jmGet (buildClimberInfo teams) k).map seedStats := by
  rw [jmFresh_foldl_eq_map (buildClimberInfo teams) seedStats []
      (fun p _ => rfl) (nodup_keys_buildClimberInfo teams)]
  simpa using jmGet_mapSnd (buildClimberInfo teams) seedStats k

theorem aggregate_keys (teams : List RosterRow) (results : List ResultRow)
    (filt : Option String) :
    jmKeys (aggregateClimberStats teams results filt)
      = jmKeys (buildClimberInfo teams) := by
  unfold aggregateClimberStats
  rw [jmKeys_applyFold,
    jmFresh_foldl_eq_map (buildClimberInfo teams) seedStats []
      (fun p _ => rfl) (nodup_keys_buildClimberInfo teams)]
  simp [jmKeys]

theorem buildClimberInfo_keys_aux (teams : List RosterRow)
    (m0 : JMap ClimberInfo) :
    jmKeys (teams.foldl
        (fun m row => if jmHas m row.climber_id then m
                      else jmSet m row.climber_id (mkInfo row)) m0)
      = teams.foldl
          (fun acc row => if row.climber_id ∈ acc then acc
                          else acc ++ [row.climber_id]) (jmKeys m0) := by
  induction teams generalizing m0 with
  | nil => rfl
  | cons row rest ih =>
      rw [List.foldl_cons, List.foldl_cons]
      by_cases hh : jmHas m0 row.climber_id
      · have hmem : row.climber_id ∈ jmKeys m0 :=
          (jmHas_iff_mem_keys m0 row.climber_id).mp hh
        rw [if_pos hh, if_pos hmem]
        exact ih m0
      · have hmem : row.climber_id ∉ jmKeys m0 := fun hc =>
          hh ((jmHas_iff_mem_keys m0 row.climber_id).mpr hc)
        rw [if_neg hh, if_neg hmem, ih _, jmKeys_set, if_neg hh]

theorem buildClimberInfo_keys (teams : List RosterRow) :
    jmKeys (buildClimberInfo teams)
      = firstDedup (teams.map (fun r => r.climber_id)) := by
  unfold buildClimberInfo firstDedup
  rw [buildClimberInfo_keys_aux teams [], List.foldl_map]
  rfl

theorem jmGet_applyFold_of_absent (rs : List ResultRow) (m : JMap ClimberStats)
    (k : String) (h : jmGet m k = none) :
    jmGet (rs.foldl applyResult m) k = none := by
  induction rs generalizing m with
  | nil => exact h
  | cons r rest ih =>
      rw [List.foldl_cons]
      refine ih _ ?_
      by_cases hc : k = r.climber_id
      · subst hc
        unfold applyResult
        by_cases hh : jmHas m r.climber_id
        · unfold jmHas at hh
          rw [h] at hh
          simp at hh
        · simp [hh, h]
      · rw [jmGet_applyResult_ne m r k hc]
        exact h

/-- Closed form of a climber-stats lookup: `none` for ids absent from the
roster; otherwise the zero seed from the first roster row folded over the
climber's processed rows. -/
theorem aggregate_get (teams : List RosterRow) (results : List ResultRow)
    (filt : Option String) (k : String) :
    jmGet (aggregateClimberStats teams results filt) k
      = (teams.find? (fun row : RosterRow => row.climber_id == k)).map
          (fun row => (processedRows results filt k).foldl
            (fun s r => applyResultUpd r s) (seedStats (mkInfo row))) := by
  have hinfo : jmGet (buildClimberInfo teams) k
      = (teams.find? (fun row : RosterRow => row.climber_id == k)).map mkInfo := by
    unfold buildClimberInfo
    rw [buildClimberInfo_get_aux teams [] k]
    rfl
  rcases hfind : teams.find? (fun row : RosterRow => row.climber_id == k) with _ | row
  · rw [hfind] at hinfo
    simp only [Option.map_none']
    have hseed : jmGet ((buildClimberInfo teams).foldl
        (fun m p => jmSet m p.1 (seedStats p.2)) []) k = none := by
      rw [seeded_get, hinfo]
      rfl
    unfold aggregateClimberStats
    exact jmGet_applyFold_of_absent _ _ k hseed
  · rw [hfind] at hinfo
    have hseed : jmGet ((buildClimberInfo teams).foldl
        (fun m p => jmSet m p.1 (seedStats p.2)) []) k
        = some (seedStats (mkInfo row)) := by
      rw [seeded_get, hinfo]
      rfl
    unfold aggregateClimberStats
    simp only [Option.map_some']
    exact applyFold_get _ _ k (seedStats (mkInfo row)) hseed

-- ============================================
-- Claim C9 — one seeded entry per roster climber
-- ============================================
/-- C9: the climber-stats map has exactly one entry per distinct roster
climber id (in first-appearance order); each entry's identity, team and
division come from the first roster row bearing that id; and a climber
with no processed result rows keeps zero points, zero attempts and an
empty breakdown. -/
theorem climberStats_seeding (teams : List RosterRow) (results : List ResultRow)
    (filt : Option String) :
    jmKeys (aggregateClimberStats teams results filt)
      = firstDedup (teams.map (fun r => r.climber_id))
    ∧ (∀ k v, jmGet (aggregateClimberStats teams results filt) k = some v →
        ∃ row, teams.find? (fun row : RosterRow => row.climber_id == k) = some row
          ∧ v.climber_id = row.climber_id ∧ v.climber_name = row.climber_name
          ∧ v.team_id = row.team_id ∧ v.team_name = row.team_name
          ∧ v.division = row.division)
    ∧ (∀ k v, jmGet (aggregateClimberStats teams results filt) k = some v →
        (∀ r ∈ processedRows results filt k, False) →
        v.total_points = 0 ∧ v.total_attempts = some 0 ∧ v.comp_breakdown = []) := by
  refine ⟨?_, ?_, ?_⟩
  · rw [aggregate_keys, buildClimberInfo_keys]
  · intro k v hv
    rw [aggregate_get] at hv
    rcases hfind : teams.find? (fun row : RosterRow => row.climber_id == k) with _ | row
    · rw [hfind] at hv
      cases hv
    · rw [hfind] at hv
      simp only [Option.map_some', Option.some_inj] at hv
      refine ⟨row, rfl, ?_⟩
      rw [← hv]
      have hid := foldUpd_identity (processedRows results filt k) (seedStats (mkInfo row))
      exact ⟨hid.1, hid.2.1, hid.2.2.1, hid.2.2.2.1, hid.2.2.2.2⟩
  · intro k v hv hempty
    have hnil : processedRows results filt k = [] := by
      rcases hp : processedRows results filt k with _ | ⟨r, rest⟩
      · rfl
      · exact absurd (hp ▸ List.mem_cons_self r rest) (fun hc => hempty r hc)
    rw [aggregate_get, hnil] at hv
    rcases hfind : teams.find? (fun row : RosterRow => row.climber_id == k) with _ | row
    · rw [hfind] at hv
      cases hv
    · rw [hfind] at hv
      simp only [Option.map_some', Option.some_inj, List.foldl_nil] at hv
      rw [← hv]
      exact ⟨rfl, rfl, rfl⟩

theorem climberStats_seeding_witness :
    ∃ row, exTeams.find? (fun row : RosterRow => row.climber_id == "C2") = some row
      ∧ exStatsC2.climber_id = row.climber_id
      ∧ exStatsC2.climber_name = row.climber_name
      ∧ exStatsC2.team_id = row.team_id ∧ exStatsC2.team_name = row.team_name
      ∧ exStatsC2.division = row.division :=
  (climberStats_seeding exTeams exResults none).2.1 "C2" exStatsC2 (by rfl)

theorem parseOr_isSome (v : JSVal) :
    (jsParseInt (jsOr v (.num 0))).isSome = attFieldOk v := by
  unfold jsOr attFieldOk
  by_cases h : jsTruthy v
  · simp [h]
  · have h0 : (jsParseInt (JSVal.num 0)).isSome = true := rfl
    simp [h, h0]

/-- A row's attempts value is the claimed integer when both fields are
handled, and NaN otherwise. -/
theorem rowAttempts_eq_claimed (r : ResultRow) :
    rowAttempts r
      = if attFieldOk r.attempts_to_zone = true ∧ attFieldOk r.attempts_to_top = true
        then some (claimedRowAttempts r) else none := by
  unfold rowAttempts claimedRowAttempts claimedAttVal
  have hz := parseOr_isSome r.attempts_to_zone
  have ht := parseOr_isSome r.attempts_to_top
  rcases hpz : jsParseInt (jsOr r.attempts_to_zone (.num 0)) with _ | a <;>
    rcases hpt : jsParseInt (jsOr r.attempts_to_top (.num 0)) with _ | b <;>
      rw [hpz] at hz <;> rw [hpt] at ht <;>
        simp [jsAdd, hpz, hpt, ← hz, ← ht]

theorem foldl_jsAdd_start_none (rs : List ResultRow) :
    rs.foldl (fun a r => jsAdd a (rowAttempts r)) none = none := by
  induction rs with
  | nil => rfl
  | cons r rest ih =>
      rw [List.foldl_cons, show jsAdd none (rowAttempts r) = none from rfl]
      exact ih

theorem foldl_jsAdd_clean (rs : List ResultRow) (a : Int)
    (h : ∀ r ∈ rs, attFieldOk r.attempts_to_zone = true
          ∧ attFieldOk r.attempts_to_top = true) :
    rs.foldl (fun acc r => jsAdd acc (rowAttempts r)) (some a)
      = some (a + (rs.map claimedRowAttempts).sum) := by
  induction rs generalizing a with
  | nil => simp
  | cons r rest ih =>
      have hr := h r (List.mem_cons_self r rest)
      have hrow : rowAttempts r = some (claimedRowAttempts r) := by
        rw [rowAttempts_eq_claimed, if_pos hr]
      rw [List.foldl_cons, hrow,
        show jsAdd (some a) (some (claimedRowAttempts r))
          = some (a + claimedRowAttempts r) from rfl,
        ih _ (fun q hq => h q (List.mem_cons_of_mem r hq)),
        List.map_cons, List.sum_cons]
      congr 1
      ring

theorem foldl_jsAdd_bad (rs : List ResultRow) (acc : Option Int)
    (h : ∃ r ∈ rs, rowAttempts r = none) :
    rs.foldl (fun a r => jsAdd a (rowAttempts r)) acc = none := by
  induction rs generalizing acc with
  | nil =>
      rcases h with ⟨r, hr, _⟩
      cases hr
  | cons r rest ih =>
      rw [List.foldl_cons]
      rcases h with ⟨q, hq, hqn⟩
      rcases List.mem_cons.mp hq with rfl | hq'
      · rw [hqn, show jsAdd acc none = none from (by cases acc <;> rfl)]
        exact foldl_jsAdd_start_none rest
      · exact ih _ ⟨q, hq', hqn⟩

/-- C3 amended: a falsy (missing/empty/zero) attempts value contributes 0
and a parseable one its parsed integer — so on rows whose attempts fields
are all handled, `total_attempts` is the finite sum of the claimed row
values; but an attempts value that is truthy yet unparseable turns the
whole total into NaN, which does propagate into the output. -/
theorem attempts_default_amended (teams : List RosterRow)
    (results : List ResultRow) (filt : Option String) (k : String)
    (v : ClimberStats)
    (hv : jmGet (aggregateClimberStats teams results filt) k = some v) :
    ((∀ r ∈ processedRows results filt k,
        attFieldOk r.attempts_to_zone = true ∧ attFieldOk r.attempts_to_top = true) →
      v.total_attempts = some ((processedRows results filt k).map claimedRowAttempts).sum)
    ∧ ((∃ r ∈ processedRows results filt k,
          attFieldOk r.attempts_to_zone = false ∨ attFieldOk r.attempts_to_top = false) →
      v.total_attempts = none) := by
  rw [aggregate_get] at hv
  rcases hfind : teams.find? (fun row : RosterRow => row.climber_id == k) with _ | row
  · rw [hfind] at hv
    cases hv
  · rw [hfind] at hv
    simp only [Option.map_some', Option.some_inj] at hv
    have hatt : v.total_attempts
        = (processedRows results filt k).foldl
            (fun a r => jsAdd a (rowAttempts r)) (some 0) := by
      rw [← hv, foldUpd_total_attempts]
      rfl
    constructor
    · intro hclean
      rw [hatt, foldl_jsAdd_clean _ 0 hclean]
      simp
    · intro hbad
      rcases hbad with ⟨r, hr, hfield⟩
      have hrow : rowAttempts r = none := by
        rw [rowAttempts_eq_claimed]
        rcases hfield with hf | hf <;>
          · rw [if_neg]
            intro hc
            rcases hc with ⟨h1, h2⟩
            first
              | (rw [hf] at h1; cases h1)
              | (rw [hf] at h2; cases h2)
      rw [hatt]
      exact foldl_jsAdd_bad _ _ ⟨r, hr, hrow⟩

theorem attempts_default_amended_witness :
    ((jmGet (aggregateClimberStats c3Teams c3Results none) "C1").map
        (fun v => v.total_attempts)) = some none :=  by
  have h := attempts_default_amended c3Teams c3Results none "C1"
    ((List.foldl (fun s r => applyResultUpd r s)
        (seedStats (mkInfo (c3Teams.getD 0 default)))
        (processedRows c3Results none "C1"))) (by rfl)
  have hbad := h.2 ⟨c3Results.getD 0 default, by decide, by decide⟩
  rw [show (jmGet (aggregateClimberStats c3Teams c3Results none) "C1")
      = some (List.foldl (fun s r => applyResultUpd r s)
          (seedStats (mkInfo (c3Teams.getD 0 default)))
          (processedRows c3Results none "C1")) from rfl]
  rw [Option.map_some', hbad]

-- ============================================
-- Claim C4 — team totals are the sums of member climbers
-- ============================================
theorem jmHas_set_mono {α : Type} (m : JMap α) (k k' : String) (v : α)
    (h : jmHas m k = true) : jmHas (jmSet m k' v) k = true := by
  rw [jmHas_iff_mem_keys] at h ⊢
  rw [jmKeys_set]
  by_cases hh : jmHas m k'
  · rw [if_pos hh]
    exact h
  · rw [if_neg hh]
    exact List.mem_append_left _ h

theorem jmHas_modify {α : Type} (m : JMap α) (k k' : String) (f : α → α) :
    jmHas (jmModify m k' f) k = jmHas m k := by
  by_cases h : jmHas m k
  · rw [h]
    rw [jmHas_iff_mem_keys] at h ⊢
    rw [jmKeys_modify]
    exact h
  · have h' : jmHas m k = false := by simpa using h
    rw [h']
    by_cases hc : jmHas (jmModify m k' f) k = true
    · rw [jmHas_iff_mem_keys, jmKeys_modify, ← jmHas_iff_mem_keys, h'] at hc
      cases hc
    · simpa using hc

theorem jmGet_set_cases {α : Type} (m : JMap α) (k k' : String) (v w : α)
    (h : jmGet (jmSet m k v) k' = some w) :
    (k' = k ∧ w = v) ∨ jmGet m k' = some w := by
  by_cases hk : k' = k
  · subst hk
    rw [jmGet_set_self] at h
    exact Or.inl ⟨rfl, (Option.some_inj.mp h).symm⟩
  · rw [jmGet_set_ne m k v k' hk] at h
    exact Or.inr h

theorem jmGet_modify_cases {α : Type} (m : JMap α) (k k' : String)
    (f : α → α) (w : α) (h : jmGet (jmModify m k f) k' = some w) :
    ∃ v0, jmGet m k' = some v0 ∧ (w = f v0 ∨ w = v0) := by
  by_cases hk : k' = k
  · subst hk
    rw [jmGet_modify_self] at h
    rcases hg : jmGet m k' with _ | v0
    · rw [hg] at h
      cases h
    · rw [hg] at h
      simp only [Option.map_some', Option.some_inj] at h
      exact ⟨v0, rfl, Or.inl h.symm⟩
  · rw [jmGet_modify_ne m k f k' hk] at h
    exact ⟨w, h, Or.inr rfl⟩

/-- Every roster row's team id has an entry after initialization. -/
theorem initTeamStats_has (teams : List RosterRow) :
    ∀ row ∈ teams, jmHas (initTeamStats teams) row.team_id = true := by
  unfold initTeamStats
  suffices h : ∀ m0 : JMap TeamStats, ∀ row ∈ teams,
      jmHas (teams.foldl
        (fun m row =>
          let m :=
            if jmHas m row.team_id then m
            else jmSet m row.team_id
              { team_id := row.team_id, team_name := row.team_name,
                total_points := 0, total_attempts := some 0, climbers := [] }
          jmModify m row.team_id (fun t =>
            if row.climber_id ∈ t.climbers then t
            else { t with climbers := t.climbers ++ [row.climber_id] })) m0)
        row.team_id = true by
    exact h []
  induction teams with
  | nil => intro m0 row hrow; cases hrow
  | cons q rest ih =>
      intro m0 row hrow
      rw [List.foldl_cons]
      rcases List.mem_cons.mp hrow with rfl | hrow'
      · -- the processed row's team id is present after its own step and
        -- stays present through the rest of the fold
        have hstep : jmHas
            (jmModify
              (if jmHas m0 row.team_id then m0
               else jmSet m0 row.team_id
                { team_id := row.team_id, team_name := row.team_name,
                  total_points := 0, total_attempts := some 0, climbers := [] })
              row.team_id (fun t =>
                if row.climber_id ∈ t.climbers then t
                else { t with climbers := t.climbers ++ [row.climber_id] }))
            row.team_id = true := by
          rw [jmHas_modify]
          by_cases hh : jmHas m0 row.team_id
          · rw [if_pos hh]
            exact hh
          · rw [if_neg hh]
            unfold jmHas
            rw [jmGet_set_self]
            rfl
        -- monotonicity of `has` through the remaining steps
        revert hstep
        generalize (jmModify
              (if jmHas m0 row.team_id then m0
               else jmSet m0 row.team_id
                { team_id := row.team_id, team_name := row.team_name,
                  total_points := 0, total_attempts := some 0, climbers := [] })
              row.team_id _) = m1
        intro hstep
        clear ih hrow
        induction rest generalizing m1 with
        | nil => exact hstep
        | cons q2 rest2 ih2 =>
            rw [List.foldl_cons]
            refine ih2 _ ?_
            rw [jmHas_modify]
            by_cases hh : jmHas m1 q2.team_id
            · rw [if_pos hh]
              exact hstep
            · rw [if_neg hh]
              exact jmHas_set_mono m1 row.team_id q2.team_id _ hstep
      · exact ih _ row hrow'

/-- Initialization leaves every team's totals at zero. -/
theorem initTeamStats_zero (teams : List RosterRow) :
    ∀ k tv, jmGet (initTeamStats teams) k = some tv →
      tv.total_points = 0 ∧ tv.total_attempts = some 0 := by
  unfold initTeamStats
  suffices h : ∀ m0 : JMap TeamStats,
      (∀ k tv, jmGet m0 k = some tv →
        tv.total_points = 0 ∧ tv.total_attempts = some 0) →
      ∀ k tv, jmGet (teams.foldl
        (fun m row =>
          let m :=
            if jmHas m row.team_id then m
            else jmSet m row.team_id
              { team_id := row.team_id, team_name := row.team_name,
                total_points := 0, total_attempts := some 0, climbers := [] }
          jmModify m row.team_id (fun t =>
            if row.climber_id ∈ t.climbers then t
            else { t with climbers := t.climbers ++ [row.climber_id] })) m0)
        k = some tv →
        tv.total_points = 0 ∧ tv.total_attempts = some 0 by
    exact h [] (by intro k tv hk; cases hk)
  induction teams with
  | nil => intro m0 h0; exact h0
  | cons row rest ih =>
      intro m0 h0
      rw [List.foldl_cons]
      refine ih _ ?_
      intro k tv hk
      rcases jmGet_modify_cases _ _ _ _ _ hk with ⟨v0, hv0, hw⟩
      have hv0z : v0.total_points = 0 ∧ v0.total_attempts = some 0 := by
        by_cases hh : jmHas m0 row.team_id
        · rw [if_pos hh] at hv0
          exact h0 k v0 hv0
        · rw [if_neg hh] at hv0
          rcases jmGet_set_cases _ _ _ _ _ hv0 with ⟨_, rfl⟩ | hv0'
          · exact ⟨rfl, rfl⟩
          · exact h0 k v0 hv0'
      rcases hw with rfl | rfl
      · by_cases hc : row.climber_id ∈ v0.climbers <;> simp [hc, hv0z.1, hv0z.2]
      · exact hv0z

/-- The team-aggregation fold adds exactly the member climbers' points. -/
theorem teamFold_points (cs : JMap ClimberStats) (m : JMap TeamStats)
    (hall : ∀ p ∈ cs, jmHas m p.2.team_id = true) (t : String) :
    ∀ tv, jmGet (cs.foldl teamStep m) t = some tv →
      ∃ tv0, jmGet m t = some tv0 ∧
        tv.total_points = tv0.total_points
          + ((cs.filter (fun p => p.2.team_id == t)).map
              (fun p => p.2.total_points)).sum := by
  induction cs generalizing m with
  | nil =>
      intro tv htv
      exact ⟨tv, htv, by simp⟩
  | cons p rest ih =>
      intro tv htv
      rw [List.foldl_cons] at htv
      have hp : jmHas m p.2.team_id = true := hall p (List.mem_cons_self p rest)
      have hstep : teamStep m p = jmModify m p.2.team_id
          (fun t => { t with
            total_points := t.total_points + p.2.total_points
            total_attempts := jsAdd t.total_attempts p.2.total_attempts }) := by
        unfold teamStep
        rw [if_pos hp]
      rw [hstep] at htv
      have hall' : ∀ q ∈ rest, jmHas (jmModify m p.2.team_id
          (fun t => { t with
            total_points := t.total_points + p.2.total_points
            total_attempts := jsAdd t.total_attempts p.2.total_attempts }))
          q.2.team_id = true := by
        intro q hq
        rw [jmHas_modify]
        exact hall q (List.mem_cons_of_mem p hq)
      rcases ih _ hall' tv htv with ⟨tv1, htv1, hpts⟩
      rw [List.filter_cons]
      by_cases hteq : p.2.team_id = t
      · have hbeq : (p.2.team_id == t) = true := by simp [hteq]
        rw [hbeq, if_pos rfl, List.map_cons, List.sum_cons]
        rw [hteq] at htv1
        rw [jmGet_modify_self] at htv1
        rcases hg : jmGet m t with _ | tv0
        · rw [hg] at htv1
          cases htv1
        · rw [hg] at htv1
          simp only [Option.map_some', Option.some_inj] at htv1
          refine ⟨tv0, rfl, ?_⟩
          rw [hpts, ← htv1]
          show tv0.total_points + p.2.total_points + _ = _
          ring
      · have hbeq : (p.2.team_id == t) = false := by simp [hteq]
        rw [hbeq]
        simp only [Bool.false_eq_true, if_false]
        rw [jmGet_modify_ne m p.2.team_id _ t (fun hc => hteq hc.symm)] at htv1
        exact ⟨tv1, htv1, hpts⟩

theorem jmGet_of_mem_nodup {α : Type} (m : JMap α)
    (h : (jmKeys m).Nodup) (k : String) (v : α) (hm : (k, v) ∈ m) :
    jmGet m k = some v := by
  induction m with
  | nil => cases hm
  | cons p ps ih =>
      rw [jmKeys, List.map_cons, List.nodup_cons] at h
      rcases List.mem_cons.mp hm with rfl | hm'
      · rw [jmGet_cons, if_pos rfl]
      · have hk : ¬ p.1 = k := by
          intro hc
          exact h.1 (hc ▸ List.mem_map_of_mem Prod.fst hm')
        rw [jmGet_cons, if_neg hk]
        exact ih h.2 hm'

theorem computePoints_dvd (r : ResultRow) : 50 ∣ computePoints r := by
  unfold computePoints
  cases jsEqNum r.zone_completed 1 <;> cases jsEqNum r.top_completed 1 <;> decide

theorem climber_points_dvd (teams : List RosterRow) (results : List ResultRow)
    (filt : Option String) (k : String) (v : ClimberStats)
    (hv : jmGet (aggregateClimberStats teams results filt) k = some v) :
    50 ∣ v.total_points := by
  rw [aggregate_get] at hv
  rcases hfind : teams.find? (fun row : RosterRow => row.climber_id == k) with _ | row
  · rw [hfind] at hv
    cases hv
  · rw [hfind] at hv
    simp only [Option.map_some', Option.some_inj] at hv
    rw [← hv, foldUpd_total_points]
    show (50 : Int) ∣ 0 + _
    rw [zero_add]
    refine List.dvd_sum ?_
    intro x hx
    rcases List.mem_map.mp hx with ⟨r, _, rfl⟩
    exact computePoints_dvd r

/-- Every entry of the climber-stats map carries a team id that the team
initialization pass has seeded (both derive from the same roster). -/
theorem aggregate_entry_team_has (teams : List RosterRow)
    (results : List ResultRow) (filt : Option String) :
    ∀ p ∈ aggregateClimberStats teams results filt,
      jmHas (initTeamStats teams) p.2.team_id = true := by
  intro p hp
  have hnd : (jmKeys (aggregateClimberStats teams results filt)).Nodup := by
    rw [aggregate_keys]
    exact nodup_keys_buildClimberInfo teams
  have hget : jmGet (aggregateClimberStats teams results filt) p.1 = some p.2 :=
    jmGet_of_mem_nodup _ hnd p.1 p.2 hp
  rw [aggregate_get] at hget
  rcases hfind : teams.find? (fun row : RosterRow => row.climber_id == p.1)
    with _ | row
  · rw [hfind] at hget
    cases hget
  · rw [hfind] at hget
    simp only [Option.map_some', Option.some_inj] at hget
    have hteam : p.2.team_id = row.team_id := by
      rw [← hget]
      exact (foldUpd_identity _ _).2.2.1
    rw [hteam]
    exact initTeamStats_has teams row (List.mem_of_find?_eq_some hfind)

/-- C4: every team's `total_points` equals the sum of `total_points` over
the climber-stats entries bearing that team id, and every climber's
`total_points` is a multiple of 50. -/
theorem team_points_sum (teams : List RosterRow) (results : List ResultRow)
    (filt : Option String) (t : String) (tv : TeamStats)
    (htv : jmGet (aggregateTeamStats
        (aggregateClimberStats teams results filt) teams) t = some tv) :
    tv.total_points
      = (((aggregateClimberStats teams results filt).filter
          (fun p => p.2.team_id == t)).map (fun p => p.2.total_points)).sum
    ∧ ∀ k v, jmGet (aggregateClimberStats teams results filt) k = some v →
        50 ∣ v.total_points := by
  constructor
  · unfold aggregateTeamStats at htv
    rcases teamFold_points _ _ (aggregate_entry_team_has teams results filt)
      t tv htv with ⟨tv0, h0, hpts⟩
    rcases initTeamStats_zero teams t tv0 h0 with ⟨hz, _⟩
    rw [hpts, hz, zero_add]
  · exact fun k v hv => climber_points_dvd teams results filt k v hv

theorem team_points_sum_witness :
    exTeamT1.total_points
      = (((aggregateClimberStats exTeams exResults none).filter
          (fun p => p.2.team_id == "T1")).map (fun p => p.2.total_points)).sum
    ∧ ∀ k v, jmGet (aggregateClimberStats exTeams exResults none) k = some v →
        50 ∣ v.total_points :=
  team_points_sum exTeams exResults none "T1" exTeamT1 (by rfl)

-- ============================================
-- Claim C5 — sortLeaderboard ordering
-- ============================================
theorem lexCmp_cons (x y : Char) (as bs : List Char) :
    lexCmp (x :: as) (y :: bs)
      = match compare x.toNat y.toNat with
        | .eq => lexCmp as bs
        | o => o := rfl

theorem lexCmp_cons_ne_gt (x y : Char) (as bs : List Char) :
    (lexCmp (x :: as) (y :: bs) ≠ .gt)
      ↔ (x.toNat < y.toNat ∨ (x.toNat = y.toNat ∧ lexCmp as bs ≠ .gt)) := by
  rw [lexCmp_cons]
  rcases h : compare x.toNat y.toNat with _ | _ | _
  · have hlt := Nat.compare_eq_lt.mp h
    simp [hlt]
  · have heq := Nat.compare_eq_eq.mp h
    simp [heq]
  · have hgt := Nat.compare_eq_gt.mp h
    constructor
    · intro hc
      exact absurd rfl hc
    · intro hc
      rcases hc with hc | ⟨hc, _⟩
      · exact absurd hgt (by omega)
      · exact absurd hgt (by omega)

theorem lexCmp_ne_gt_total : ∀ a b : List Char,
    (lexCmp a b ≠ .gt) ∨ (lexCmp b a ≠ .gt) := by
  intro a
  induction a with
  | nil =>
      intro b
      cases b <;> simp [lexCmp]
  | cons x as ih =>
      intro b
      cases b with
      | nil => simp [lexCmp]
      | cons y bs =>
          rcases Nat.lt_trichotomy x.toNat y.toNat with h | h | h
          · exact Or.inl ((lexCmp_cons_ne_gt x y as bs).mpr (Or.inl h))
          · rcases ih bs with hab | hba
            · exact Or.inl ((lexCmp_cons_ne_gt x y as bs).mpr (Or.inr ⟨h, hab⟩))
            · exact Or.inr ((lexCmp_cons_ne_gt y x bs as).mpr (Or.inr ⟨h.symm, hba⟩))
          · exact Or.inr ((lexCmp_cons_ne_gt y x bs as).mpr (Or.inl h))

theorem lexCmp_ne_gt_trans : ∀ a b c : List Char,
    lexCmp a b ≠ .gt → lexCmp b c ≠ .gt → lexCmp a c ≠ .gt := by
  intro a
  induction a with
  | nil =>
      intro b c _ _
      cases c <;> simp [lexCmp]
  | cons x as ih =>
      intro b c h1 h2
      cases b with
      | nil => simp [lexCmp] at h1
      | cons y bs =>
          cases c with
          | nil => simp [lexCmp] at h2
          | cons z cs =>
              rcases (lexCmp_cons_ne_gt x y as bs).mp h1 with hxy | ⟨hxy, hab⟩ <;>
                rcases (lexCmp_cons_ne_gt y z bs cs).mp h2 with hyz | ⟨hyz, hbc⟩
              · exact (lexCmp_cons_ne_gt x z as cs).mpr (Or.inl (by omega))
              · exact (lexCmp_cons_ne_gt x z as cs).mpr (Or.inl (by omega))
              · exact (lexCmp_cons_ne_gt x z as cs).mpr (Or.inl (by omega))
              · exact (lexCmp_cons_ne_gt x z as cs).mpr
                  (Or.inr ⟨by omega, ih bs cs hab hbc⟩)

theorem compareText_ne_gt_total (a b : String) :
    (compareText a b ≠ .gt) ∨ (compareText b a ≠ .gt) :=
  lexCmp_ne_gt_total _ _

theorem compareText_ne_gt_trans (a b c : String)
    (h1 : compareText a b ≠ .gt) (h2 : compareText b c ≠ .gt) :
    compareText a c ≠ .gt :=
  lexCmp_ne_gt_trans _ _ _ h1 h2

theorem cmpLB_ne_gt_iff (a b : LBItem) :
    (cmpLB a b ≠ .gt) ↔
      b.total_points < a.total_points
      ∨ (a.total_points = b.total_points ∧ a.total_attempts < b.total_attempts)
      ∨ (a.total_points = b.total_points ∧ a.total_attempts = b.total_attempts
          ∧ compareText a.lbName b.lbName ≠ .gt) := by
  unfold cmpLB
  by_cases hp : a.total_points = b.total_points
  · rw [if_neg (by simpa using hp)]
    by_cases ha : a.total_attempts = b.total_attempts
    · rw [if_neg (by simpa using ha)]
      constructor
      · intro h
        exact Or.inr (Or.inr ⟨hp, ha, h⟩)
      · intro h
        rcases h with h | ⟨_, h⟩ | ⟨_, _, h⟩
        · omega
        · omega
        · exact h
    · rw [if_pos ha]
      by_cases hlt : a.total_attempts < b.total_attempts
      · rw [if_pos hlt]
        constructor
        · intro _
          exact Or.inr (Or.inl ⟨hp, hlt⟩)
        · intro _
          simp
      · rw [if_neg hlt]
        constructor
        · intro h
          exact absurd rfl h
        · intro h
          rcases h with h | ⟨_, h⟩ | ⟨_, h, _⟩
          · omega
          · omega
          · omega
  · rw [if_pos hp]
    by_cases hlt : b.total_points < a.total_points
    · rw [if_pos hlt]
      constructor
      · intro _
        exact Or.inl hlt
      · intro _
        simp
    · rw [if_neg hlt]
      constructor
      · intro h
        exact absurd rfl h
      · intro h
        rcases h with h | ⟨h, _⟩ | ⟨h, _, _⟩
        · omega
        · omega
        · omega

theorem lbLe_total (a b : LBItem) :
    decide (cmpLB a b ≠ .gt) = true ∨ decide (cmpLB b a ≠ .gt) = true := by
  rcases Int.lt_trichotomy a.total_points b.total_points with h | h | h
  · exact Or.inr (decide_eq_true ((cmpLB_ne_gt_iff b a).mpr (Or.inl h)))
  · rcases Int.lt_trichotomy a.total_attempts b.total_attempts with h2 | h2 | h2
    · exact Or.inl (decide_eq_true
        ((cmpLB_ne_gt_iff a b).mpr (Or.inr (Or.inl ⟨h, h2⟩))))
    · rcases compareText_ne_gt_total a.lbName b.lbName with h3 | h3
      · exact Or.inl (decide_eq_true
          ((cmpLB_ne_gt_iff a b).mpr (Or.inr (Or.inr ⟨h, h2, h3⟩))))
      · exact Or.inr (decide_eq_true
          ((cmpLB_ne_gt_iff b a).mpr (Or.inr (Or.inr ⟨h.symm, h2.symm, h3⟩))))
    · exact Or.inr (decide_eq_true
        ((cmpLB_ne_gt_iff b a).mpr (Or.inr (Or.inl ⟨h.symm, h2⟩))))
  · exact Or.inl (decide_eq_true ((cmpLB_ne_gt_iff a b).mpr (Or.inl h)))

theorem lbLe_trans (a b c : LBItem)
    (h1 : decide (cmpLB a b ≠ .gt) = true)
    (h2 : decide (cmpLB b c ≠ .gt) = true) :
    decide (cmpLB a c ≠ .gt) = true := by
  have h1' := (cmpLB_ne_gt_iff a b).mp (of_decide_eq_true h1)
  have h2' := (cmpLB_ne_gt_iff b c).mp (of_decide_eq_true h2)
  refine decide_eq_true ((cmpLB_ne_gt_iff a c).mpr ?_)
  rcases h1' with h1' | ⟨hp1, h1'⟩ | ⟨hp1, hat1, hn1⟩ <;>
    rcases h2' with h2' | ⟨hp2, h2'⟩ | ⟨hp2, hat2, hn2⟩
  · exact Or.inl (by omega)
  · exact Or.inl (by omega)
  · exact Or.inl (by omega)
  · exact Or.inl (by omega)
  · exact Or.inr (Or.inl ⟨by omega, by omega⟩)
  · exact Or.inr (Or.inl ⟨by omega, by omega⟩)
  · exact Or.inl (by omega)
  · exact Or.inr (Or.inl ⟨by omega, by omega⟩)
  · exact Or.inr (Or.inr ⟨by omega, by omega,
      compareText_ne_gt_trans _ _ _ hn1 hn2⟩)

/-- C5: in the output of `sortLeaderboard`, any earlier item beats any later
item by points, or ties on points with no more attempts, or ties on both
with a case-insensitively no-greater name; and two climbers tied on points
and attempts named "Zed" and "Amy" come out with Amy first. -/
theorem sortLeaderboard_ordering :
    (∀ (data : List LBItem) (i j : Fin (sortLeaderboard data).length),
      i < j →
        ((sortLeaderboard data).get j).total_points
            < ((sortLeaderboard data).get i).total_points
        ∨ (((sortLeaderboard data).get i).total_points
              = ((sortLeaderboard data).get j).total_points
            ∧ ((sortLeaderboard data).get i).total_attempts
              ≤ ((sortLeaderboard data).get j).total_attempts)
        ∨ (((sortLeaderboard data).get i).total_points
              = ((sortLeaderboard data).get j).total_points
            ∧ ((sortLeaderboard data).get i).total_attempts
              = ((sortLeaderboard data).get j).total_attempts
            ∧ compareText ((sortLeaderboard data).get i).lbName
                ((sortLeaderboard data).get j).lbName ≠ .gt))
    ∧ sortLeaderboard [⟨100, 7, "Zed"⟩, ⟨100, 7, "Amy"⟩]
        = [⟨100, 7, "Amy"⟩, ⟨100, 7, "Zed"⟩] := by
  constructor
  · intro data i j hij
    have hp := @pairwise_insSortBy LBItem (fun a b => decide (cmpLB a b ≠ .gt))
      lbLe_total lbLe_trans data
    have hrel := (List.pairwise_iff_get.mp hp) i j hij
    have hle := (cmpLB_ne_gt_iff _ _).mp (of_decide_eq_true hrel)
    rcases hle with h | ⟨h1, h2⟩ | ⟨h1, h2, h3⟩
    · exact Or.inl h
    · exact Or.inr (Or.inl ⟨h1, le_of_lt h2⟩)
    · exact Or.inr (Or.inr ⟨h1, h2, h3⟩)
  · decide

theorem sortLeaderboard_ordering_witness :
    ((sortLeaderboard [⟨100, 7, "Zed"⟩, ⟨100, 7, "Amy"⟩]).get
        ⟨1, by decide⟩).total_points
      < ((sortLeaderboard [⟨100, 7, "Zed"⟩, ⟨100, 7, "Amy"⟩]).get
        ⟨0, by decide⟩).total_points
    ∨ (((sortLeaderboard [⟨100, 7, "Zed"⟩, ⟨100, 7, "Amy"⟩]).get
          ⟨0, by decide⟩).total_points
        = ((sortLeaderboard [⟨100, 7, "Zed"⟩, ⟨100, 7, "Amy"⟩]).get
          ⟨1, by decide⟩).total_points
        ∧ ((sortLeaderboard [⟨100, 7, "Zed"⟩, ⟨100, 7, "Amy"⟩]).get
          ⟨0, by decide⟩).total_attempts
        ≤ ((sortLeaderboard [⟨100, 7, "Zed"⟩, ⟨100, 7, "Amy"⟩]).get
          ⟨1, by decide⟩).total_attempts)
    ∨ (((sortLeaderboard [⟨100, 7, "Zed"⟩, ⟨100, 7, "Amy"⟩]).get
          ⟨0, by decide⟩).total_points
        = ((sortLeaderboard [⟨100, 7, "Zed"⟩, ⟨100, 7, "Amy"⟩]).get
          ⟨1, by decide⟩).total_points
        ∧ ((sortLeaderboard [⟨100, 7, "Zed"⟩, ⟨100, 7, "Amy"⟩]).get
          ⟨0, by decide⟩).total_attempts
        = ((sortLeaderboard [⟨100, 7, "Zed"⟩, ⟨100, 7, "Amy"⟩]).get
          ⟨1, by decide⟩).total_attempts
        ∧ compareText ((sortLeaderboard [⟨100, 7, "Zed"⟩, ⟨100, 7, "Amy"⟩]).get
            ⟨0, by decide⟩).lbName
          ((sortLeaderboard [⟨100, 7, "Zed"⟩, ⟨100, 7, "Amy"⟩]).get
            ⟨1, by decide⟩).lbName ≠ .gt) :=
  sortLeaderboard_ordering.1 [⟨100, 7, "Zed"⟩, ⟨100, 7, "Amy"⟩]
    ⟨0, by decide⟩ ⟨1, by decide⟩ (by decide)

-- ============================================
-- Award machinery: numeric order, max scan, winner filters
-- ============================================
theorem optLe_total (a b : Option Int) : optLe a b = true ∨ optLe b a = true := by
  rcases a with _ | x <;> rcases b with _ | y <;> simp [optLe] <;> omega

theorem optLe_trans (a b c : Option Int) (h1 : optLe a b = true)
    (h2 : optLe b c = true) : optLe a c = true := by
  rcases a with _ | x <;> rcases b with _ | y <;> rcases c with _ | z <;>
    simp [optLe] at * <;> omega

theorem optLe_antisymm (a b : Option Int) (h1 : optLe a b = true)
    (h2 : optLe b a = true) : a = b := by
  rcases a with _ | x <;> rcases b with _ | y <;> simp [optLe] at * <;> omega

/-- The key-indexed form of `optLe` is total. -/
theorem keyedOptLe_total {β : Type} (key : β → Option Int) (a b : β) :
    optLe (key a) (key b) = true ∨ optLe (key b) (key a) = true :=
  optLe_total _ _

theorem keyedOptLe_trans {β : Type} (key : β → Option Int) (a b c : β)
    (h1 : optLe (key a) (key b) = true) (h2 : optLe (key b) (key c) = true) :
    optLe (key a) (key c) = true :=
  optLe_trans _ _ _ h1 h2

/-- The attempts-ascending winner filter selects exactly the minimal
candidates (w.r.t. `optLe` on the key). -/
theorem winners_filter_iff {β : Type} [DecidableEq β] (key : β → Option Int)
    (l : List β) (c0 : β) (rest : List β)
    (hs : insSortBy (fun a b => optLe (key a) (key b)) l = c0 :: rest) :
    ∀ w, w ∈ (c0 :: rest).filter (fun c => key c = key c0)
      ↔ (w ∈ l ∧ ∀ x ∈ l, optLe (key w) (key x) = true) := by
  have hperm := insSortBy_perm (fun a b => optLe (key a) (key b)) l
  rw [hs] at hperm
  have hc0min : ∀ z ∈ l, optLe (key c0) (key z) = true :=
    head_insSortBy_le (keyedOptLe_total key) (keyedOptLe_trans key) l c0 rest hs
  have hc0mem : c0 ∈ l := hperm.mem_iff.mp (List.mem_cons_self c0 rest)
  intro w
  constructor
  · intro hw
    have hw' := List.mem_filter.mp hw
    have hwl : w ∈ l := hperm.mem_iff.mp hw'.1
    have hkey : key w = key c0 := by
      have := hw'.2
      simpa using this
    refine ⟨hwl, ?_⟩
    intro x hx
    rw [hkey]
    exact hc0min x hx
  · intro ⟨hwl, hwmin⟩
    refine List.mem_filter.mpr ⟨hperm.mem_iff.mpr hwl, ?_⟩
    have h1 : optLe (key w) (key c0) = true := hwmin c0 hc0mem
    have h2 : optLe (key c0) (key w) = true := hc0min w hwl
    simp [optLe_antisymm _ _ h1 h2]

/-- Specification of the running-maximum scan over a count map. -/
theorem maxVal_fold_spec (m : JMap Nat) (a : Nat) :
    (m.foldl (fun acc p => if p.2 > acc then p.2 else acc) a = a
      ∨ ∃ p ∈ m, m.foldl (fun acc p => if p.2 > acc then p.2 else acc) a = p.2)
    ∧ a ≤ m.foldl (fun acc p => if p.2 > acc then p.2 else acc) a
    ∧ ∀ p ∈ m, p.2 ≤ m.foldl (fun acc p => if p.2 > acc then p.2 else acc) a := by
  induction m generalizing a with
  | nil =>
      exact ⟨Or.inl rfl, le_refl a, fun p hp => absurd hp (List.not_mem_nil p)⟩
  | cons q qs ih =>
      rw [List.foldl_cons]
      by_cases hq : q.2 > a
      · rw [if_pos hq]
        rcases ih q.2 with ⟨hself, hmono, hall⟩
        refine ⟨?_, ?_, ?_⟩
        · rcases hself with h | ⟨p, hp, hp2⟩
          · exact Or.inr ⟨q, List.mem_cons_self q qs, h⟩
          · exact Or.inr ⟨p, List.mem_cons_of_mem q hp, hp2⟩
        · omega
        · intro p hp
          rcases List.mem_cons.mp hp with rfl | hp'
          · exact hmono
          · exact hall p hp'
      · rw [if_neg hq]
        rcases ih a with ⟨hself, hmono, hall⟩
        refine ⟨?_, hmono, ?_⟩
        · rcases hself with h | ⟨p, hp, hp2⟩
          · exact Or.inl h
          · exact Or.inr ⟨p, List.mem_cons_of_mem q hp, hp2⟩
        · intro p hp
          rcases List.mem_cons.mp hp with rfl | hp'
          · omega
          · exact hall p hp'

theorem maxVal_attained (m : JMap Nat) (h : 0 < maxVal m) :
    ∃ p ∈ m, p.2 = maxVal m := by
  unfold maxVal at *
  rcases (maxVal_fold_spec m 0).1 with h0 | ⟨p, hp, hp2⟩
  · rw [h0] at h
    cases h
  · exact ⟨p, hp, hp2.symm⟩

theorem maxVal_ge (m : JMap Nat) : ∀ p ∈ m, p.2 ≤ maxVal m :=
  (maxVal_fold_spec m 0).2.2

theorem nodupKeys_jmSet {α : Type} (m : JMap α) (k : String) (v : α)
    (h : (jmKeys m).Nodup) : (jmKeys (jmSet m k v)).Nodup := by
  rw [jmKeys_set]
  by_cases hh : jmHas m k
  · rw [if_pos hh]
    exact h
  · rw [if_neg hh]
    have hk : k ∉ jmKeys m := fun hc => hh ((jmHas_iff_mem_keys m k).mpr hc)
    simp [List.nodup_append, h, hk]

theorem jmGet_iff_mem_nodup {α : Type} (m : JMap α)
    (h : (jmKeys m).Nodup) (k : String) (v : α) :
    jmGet m k = some v ↔ (k, v) ∈ m := by
  constructor
  · intro hg
    unfold jmGet at hg
    rcases hf : m.find? (fun p => p.1 = k) with _ | p
    · rw [hf] at hg
      cases hg
    · rw [hf] at hg
      simp only [Option.map_some', Option.some_inj] at hg
      have hp := List.mem_of_find?_eq_some hf
      have hp1 : p.1 = k := by
        have := List.find?_some hf
        simpa using this
      have : p = (k, v) := by
        rcases p with ⟨p1, p2⟩
        simp only at hp1 hg
        rw [hp1, hg]
      rw [← this]
      exact hp
  · exact jmGet_of_mem_nodup m h k v

theorem zoneOnlyCounts_get_aux (results : List ResultRow) (m0 : JMap Nat)
    (c : String) :
    jmGet (results.foldl
      (fun m r =>
        if jsEqNum r.zone_completed 1 ∧ jsEqNum r.top_completed 0 then
          jmSet m r.climber_id ((jmGet m r.climber_id).getD 0 + 1)
        else m) m0) c
      = if zoneCount results c = 0 then jmGet m0 c
        else some ((jmGet m0 c).getD 0 + zoneCount results c) := by
  induction results generalizing m0 with
  | nil => simp [zoneCount]
  | cons r rest ih =>
      rw [List.foldl_cons]
      by_cases hcond : jsEqNum r.zone_completed 1 = true
          ∧ jsEqNum r.top_completed 0 = true
      · rw [if_pos hcond]
        by_cases hc : r.climber_id = c
        · have hcount : zoneCount (r :: rest) c = zoneCount rest c + 1 := by
            simp [zoneCount, List.countP_cons, hc, hcond.1, hcond.2]
          have hg1 : jmGet (jmSet m0 r.climber_id
              ((jmGet m0 r.climber_id).getD 0 + 1)) c
              = some ((jmGet m0 c).getD 0 + 1) := by
            rw [← hc]
            exact jmGet_set_self m0 r.climber_id _
          rw [ih _, hcount]
          by_cases h0 : zoneCount rest c = 0
          · rw [if_pos h0, if_neg (by omega), hg1, h0]
          · rw [if_neg h0, if_neg (by omega), hg1]
            simp only [Option.getD_some]
            congr 1
            omega
        · have hcount : zoneCount (r :: rest) c = zoneCount rest c := by
            simp [zoneCount, List.countP_cons, hc]
          have hg1 : jmGet (jmSet m0 r.climber_id
              ((jmGet m0 r.climber_id).getD 0 + 1)) c = jmGet m0 c :=
            jmGet_set_ne m0 r.climber_id _ c (fun hk => hc hk.symm)
          rw [ih _, hcount, hg1]
      · rw [if_neg hcond]
        have hzb : (jsEqNum r.zone_completed 1 && jsEqNum r.top_completed 0) = false := by
          rcases hz : jsEqNum r.zone_completed 1 <;>
            rcases ht : jsEqNum r.top_completed 0 <;>
              simp_all
        have hcount : zoneCount (r :: rest) c = zoneCount rest c := by
          simp [zoneCount, List.countP_cons, hzb]
        rw [ih m0, hcount]

theorem zoneOnlyCounts_get (results : List ResultRow) (c : String) :
    jmGet (zoneOnlyCounts results) c
      = if zoneCount results c = 0 then none
        else some (zoneCount results c) := by
  unfold zoneOnlyCounts
  rw [zoneOnlyCounts_get_aux results [] c]
  by_cases h0 : zoneCount results c = 0
  · rw [if_pos h0, if_pos h0]
    rfl
  · rw [if_neg h0, if_neg h0]
    show some ((Option.getD none 0) + zoneCount results c) = _
    simp

theorem nodupKeys_zoneOnlyCounts (results : List ResultRow) :
    (jmKeys (zoneOnlyCounts results)).Nodup := by
  unfold zoneOnlyCounts
  suffices h : ∀ m0 : JMap Nat, (jmKeys m0).Nodup →
      (jmKeys (results.foldl
        (fun m r =>
          if jsEqNum r.zone_completed 1 ∧ jsEqNum r.top_completed 0 then
            jmSet m r.climber_id ((jmGet m r.climber_id).getD 0 + 1)
          else m) m0)).Nodup by
    exact h [] (by simp [jmKeys])
  induction results with
  | nil => exact fun m0 h0 => h0
  | cons r rest ih =>
      intro m0 h0
      rw [List.foldl_cons]
      by_cases hcond : jsEqNum r.zone_completed 1 = true
          ∧ jsEqNum r.top_completed 0 = true
      · rw [if_pos hcond]
        exact ih _ (nodupKeys_jmSet m0 r.climber_id _ h0)
      · rw [if_neg hcond]
        exact ih m0 h0

/-- Membership in the Zone Hero candidate list, over a generic count map
and maximum. -/
theorem zoneCandidates_aux (zc : JMap Nat) (cs : JMap ClimberStats)
    (maxZ : Nat) (acc : List ZoneCand) :
    ∀ x, x ∈ zc.foldl
        (fun cands p =>
          if p.2 = maxZ then
            match jmGet cs p.1 with
            | some climber =>
                cands ++ [⟨climber.climber_name, p.2, climber.total_attempts⟩]
            | none => cands
          else cands) acc
      ↔ x ∈ acc ∨ ∃ p ∈ zc, p.2 = maxZ ∧ ∃ climber, jmGet cs p.1 = some climber
          ∧ x = ⟨climber.climber_name, p.2, climber.total_attempts⟩ := by
  induction zc generalizing acc with
  | nil =>
      intro x
      simp
  | cons q qs ih =>
      intro x
      rw [List.foldl_cons]
      by_cases hq : q.2 = maxZ
      · rw [if_pos hq]
        rcases hcl : jmGet cs q.1 with _ | climber
        · rw [ih acc x]
          constructor
          · intro h
            rcases h with h | ⟨p, hp, h2⟩
            · exact Or.inl h
            · exact Or.inr ⟨p, List.mem_cons_of_mem q hp, h2⟩
          · intro h
            rcases h with h | ⟨p, hp, h2⟩
            · exact Or.inl h
            · rcases List.mem_cons.mp hp with rfl | hp'
              · rcases h2 with ⟨_, cl, hcl', _⟩
                rw [hcl] at hcl'
                cases hcl'
              · exact Or.inr ⟨p, hp', h2⟩
        · rw [ih _ x]
          constructor
          · intro h
            rcases h with h | ⟨p, hp, h2⟩
            · rcases List.mem_append.mp h with h' | h'
              · exact Or.inl h'
              · refine Or.inr ⟨q, List.mem_cons_self q qs, hq, climber, hcl, ?_⟩
                simpa using h'
            · exact Or.inr ⟨p, List.mem_cons_of_mem q hp, h2⟩
          · intro h
            rcases h with h | ⟨p, hp, hpm, cl, hcl', hx⟩
            · exact Or.inl (List.mem_append_left _ h)
            · rcases List.mem_cons.mp hp with rfl | hp'
              · rw [hcl] at hcl'
                injection hcl' with hcl2
                subst hcl2
                exact Or.inl (List.mem_append_right _ (by simp [hx]))
              · exact Or.inr ⟨p, hp', hpm, cl, hcl', hx⟩
      · rw [if_neg hq]
        rw [ih acc x]
        constructor
        · intro h
          rcases h with h | ⟨p, hp, h2⟩
          · exact Or.inl h
          · exact Or.inr ⟨p, List.mem_cons_of_mem q hp, h2⟩
        · intro h
          rcases h with h | ⟨p, hp, h2⟩
          · exact Or.inl h
          · rcases List.mem_cons.mp hp with rfl | hp'
            · exact absurd h2.1 hq
            · exact Or.inr ⟨p, hp', h2⟩

theorem zoneCandidates_mem (results : List ResultRow) (cs : JMap ClimberStats) :
    ∀ x, x ∈ zoneCandidates results cs
      ↔ ∃ c climber, jmGet cs c = some climber
          ∧ 0 < zoneCount results c
          ∧ zoneCount results c = maxVal (zoneOnlyCounts results)
          ∧ x = ⟨climber.climber_name, zoneCount results c,
                 climber.total_attempts⟩ := by
  intro x
  unfold zoneCandidates
  rw [zoneCandidates_aux (zoneOnlyCounts results) cs
    (maxVal (zoneOnlyCounts results)) [] x]
  simp only [List.not_mem_nil, false_or]
  constructor
  · rintro ⟨p, hp, hmax, climber, hcl, hx⟩
    have hg := jmGet_of_mem_nodup _ (nodupKeys_zoneOnlyCounts results) p.1 p.2 hp
    rw [zoneOnlyCounts_get] at hg
    by_cases h0 : zoneCount results p.1 = 0
    · rw [if_pos h0] at hg
      cases hg
    · rw [if_neg h0] at hg
      have hcnt : zoneCount results p.1 = p.2 := Option.some_inj.mp hg
      exact ⟨p.1, climber, hcl, by omega, by rw [hcnt, hmax], by rw [hcnt]; exact hx⟩
  · rintro ⟨c, climber, hcl, hpos, hmax, hx⟩
    have hg : jmGet (zoneOnlyCounts results) c = some (zoneCount results c) := by
      rw [zoneOnlyCounts_get, if_neg (by omega)]
    have hmem : (c, zoneCount results c) ∈ zoneOnlyCounts results :=
      (jmGet_iff_mem_nodup _ (nodupKeys_zoneOnlyCounts results) _ _).mp hg
    exact ⟨(c, zoneCount results c), hmem, hmax, climber, hcl, hx⟩

theorem maxZones_eq_zero_iff (results : List ResultRow) :
    maxVal (zoneOnlyCounts results) = 0
      ↔ ∀ c : String, zoneCount results c = 0 := by
  constructor
  · intro h c
    by_contra h0
    have hg : jmGet (zoneOnlyCounts results) c = some (zoneCount results c) := by
      rw [zoneOnlyCounts_get, if_neg h0]
    have hmem : (c, zoneCount results c) ∈ zoneOnlyCounts results :=
      (jmGet_iff_mem_nodup _ (nodupKeys_zoneOnlyCounts results) _ _).mp hg
    have := maxVal_ge (zoneOnlyCounts results) _ hmem
    simp only at this
    omega
  · intro h
    by_contra h0
    have hpos : 0 < maxVal (zoneOnlyCounts results) := by omega
    rcases maxVal_attained _ hpos with ⟨p, hp, hp2⟩
    have hg := jmGet_of_mem_nodup _ (nodupKeys_zoneOnlyCounts results) p.1 p.2 hp
    rw [zoneOnlyCounts_get] at hg
    by_cases hc0 : zoneCount results p.1 = 0
    · rw [if_pos hc0] at hg
      cases hg
    · exact hc0 (h p.1)

theorem optStrictEq_eq_decide (a b : Option Int) (ha : a.isSome = true)
    (hb : b.isSome = true) : optStrictEq a b = decide (a = b) := by
  rcases a with _ | x
  · cases ha
  · rcases b with _ | y
    · cases hb
    · by_cases hxy : x = y
      · subst hxy
        simp [optStrictEq]
      · simp [optStrictEq, hxy]

theorem jmGet_mem {α : Type} (m : JMap α) (k : String) (v : α)
    (h : jmGet m k = some v) : ∃ p ∈ m, p.2 = v := by
  unfold jmGet at h
  rcases hf : m.find? (fun p => p.1 = k) with _ | p
  · rw [hf] at h
    cases h
  · rw [hf] at h
    exact ⟨p, List.mem_of_find?_eq_some hf, Option.some_inj.mp h⟩

theorem foldl_jsAdd_some :
    ∀ (l : List ResultRow), (∀ r ∈ l, (rowAttempts r).isSome = true) →
      ∀ s : Int,
        (l.foldl (fun sum r => jsAdd sum (rowAttempts r)) (some s)).isSome
          = true := by
  intro l
  induction l with
  | nil =>
      intro _ s
      rfl
  | cons r rs ih =>
      intro hl s
      rw [List.foldl_cons]
      rcases ha : rowAttempts r with _ | a
      · have hsr := hl r (List.mem_cons_self r rs)
        rw [ha] at hsr
        cases hsr
      · rw [show jsAdd (some s) (some a) = some (s + a) from rfl]
        exact ih (fun q hq => hl q (List.mem_cons_of_mem r hq)) (s + a)

theorem compAttempts_isSome (results : List ResultRow)
    (hatt : ∀ r ∈ results, (rowAttempts r).isSome = true)
    (cl comp : String) : (compAttempts results cl comp).isSome = true := by
  unfold compAttempts
  exact foldl_jsAdd_some _
    (fun r hr => hatt r (List.mem_of_mem_filter hr)) 0

/-- C8 fails as stated: the code tests `top_completed == 0`, and in JS
`undefined == 0` is false, so a row whose `top_completed` is missing does
NOT count as a zone-only result — while the claim ("everything else
including missing means false") says it should.  Here the only row has
`zone_completed = 1` and no `top_completed`: the claim makes climber C1 a
Zone Hero with count 1, but the code's zone-only count is 0 and the award
is null. -/
theorem zone_hero_counterexample :
    zoneHeroAward
      [{ comp_id := "1", comp_date := "d", boulder_id := "b1",
         climber_id := "C1",
         attempts_to_zone := .str "1", attempts_to_top := .str "",
         zone_completed := .num 1, top_completed := .undef }]
      [("C1", { climber_id := "C1", climber_name := "Ann", team_id := "T1",
                team_name := "Alpha", division := "Beginner",
                total_points := 50, total_attempts := some 1,
                comp_breakdown := [("1", ⟨50, some 1⟩)] })]
      = Except.ok none
    ∧ (jsEqNum (JSVal.num 1) 1 = true ∧ ¬ jsEqNum (JSVal.undef) 1 = true) := by
  exact ⟨rfl, by decide⟩

/-- C8 amended: the Zone Hero counts, per climber, the result rows with
`zone_completed` loosely equal to 1 AND `top_completed` loosely equal to 0
(so a missing `top_completed` row does not count); among climbers in the
stats map the candidates are exactly those attaining the maximal count,
the winners are the candidates with the fewest total attempts, the award
is null exactly when no row qualifies, and ties join all winner names.
Stated for stats whose `total_attempts` are numbers (non-NaN): a NaN head
instead empties the `===` winner filter and the source throws at
`winners[0].zones` (main.js:1031). -/
theorem zone_hero_amended (results : List ResultRow) (cs : JMap ClimberStats)
    (hknown : ∀ r ∈ results, jmHas cs r.climber_id = true)
    (hatt : ∀ p ∈ cs, p.2.total_attempts.isSome = true)
    (hres : results ≠ []) (hcs : cs ≠ []) :
    ∃ award, zoneHeroAward results cs = .ok award
      ∧ (award = none ↔ ∀ c : String, zoneCount results c = 0)
      ∧ (∀ x, x ∈ zoneCandidates results cs ↔
          ∃ c climber, jmGet cs c = some climber
            ∧ 0 < zoneCount results c
            ∧ (∀ c2 : String, zoneCount results c2 ≤ zoneCount results c)
            ∧ x = ⟨climber.climber_name, zoneCount results c,
                   climber.total_attempts⟩)
      ∧ (∀ w, w ∈ zoneWinners results cs ↔
          (w ∈ zoneCandidates results cs
            ∧ ∀ x ∈ zoneCandidates results cs,
                optLe w.attempts x.attempts = true))
      ∧ (∀ a, award = some a →
          a.climber_name = String.intercalate " & "
            ((zoneWinners results cs).map (fun c => c.climber_name))
          ∧ (a.is_tie = true ↔ 1 < (zoneWinners results cs).length)) := by
  have hcand : ∀ x, x ∈ zoneCandidates results cs ↔
      ∃ c climber, jmGet cs c = some climber
        ∧ 0 < zoneCount results c
        ∧ (∀ c2 : String, zoneCount results c2 ≤ zoneCount results c)
        ∧ x = ⟨climber.climber_name, zoneCount results c,
               climber.total_attempts⟩ := by
    intro x
    rw [zoneCandidates_mem results cs x]
    constructor
    · rintro ⟨c, climber, hcl, hpos, hmax, hx⟩
      refine ⟨c, climber, hcl, hpos, ?_, hx⟩
      intro c2
      by_cases h2 : zoneCount results c2 = 0
      · omega
      · have hg : jmGet (zoneOnlyCounts results) c2
            = some (zoneCount results c2) := by
          rw [zoneOnlyCounts_get, if_neg h2]
        have hmem : (c2, zoneCount results c2) ∈ zoneOnlyCounts results :=
          (jmGet_iff_mem_nodup _ (nodupKeys_zoneOnlyCounts results) _ _).mp hg
        have := maxVal_ge (zoneOnlyCounts results) _ hmem
        simp only at this
        omega
    · rintro ⟨c, climber, hcl, hpos, hall, hx⟩
      refine ⟨c, climber, hcl, hpos, ?_, hx⟩
      have h1 : maxVal (zoneOnlyCounts results) ≤ zoneCount results c := by
        by_cases h0 : maxVal (zoneOnlyCounts results) = 0
        · omega
        · rcases maxVal_attained (zoneOnlyCounts results) (by omega)
            with ⟨p, hp, hp2⟩
          have hg := jmGet_of_mem_nodup _ (nodupKeys_zoneOnlyCounts results)
            p.1 p.2 hp
          rw [zoneOnlyCounts_get] at hg
          by_cases hc0 : zoneCount results p.1 = 0
          · rw [if_pos hc0] at hg
            cases hg
          · rw [if_neg hc0] at hg
            have := hall p.1
            have hcnt : zoneCount results p.1 = p.2 := Option.some_inj.mp hg
            omega
      have hg : jmGet (zoneOnlyCounts results) c
          = some (zoneCount results c) := by
        rw [zoneOnlyCounts_get, if_neg (by omega)]
      have hmem : (c, zoneCount results c) ∈ zoneOnlyCounts results :=
        (jmGet_iff_mem_nodup _ (nodupKeys_zoneOnlyCounts results) _ _).mp hg
      have h2 := maxVal_ge (zoneOnlyCounts results) _ hmem
      simp only at h2
      omega
  by_cases hmax : maxVal (zoneOnlyCounts results) = 0
  · -- no qualifying row: the award is null and the candidate sets are empty
    have hawardeq : zoneHeroAward results cs = .ok none := by
      unfold zoneHeroAward
      rw [if_pos ⟨by
            rcases results with _ | ⟨r, rs⟩
            · exact absurd rfl hres
            · simp,
          by
            rcases cs with _ | ⟨p, ps⟩
            · exact absurd rfl hcs
            · simp⟩]
      rw [if_neg (by omega)]
      rfl
    have hcandnil : zoneCandidates results cs = [] := by
      rcases hz : zoneCandidates results cs with _ | ⟨x, xs⟩
      · rfl
      · exfalso
        have hx := (zoneCandidates_mem results cs x).mp (hz ▸ List.mem_cons_self x xs)
        rcases hx with ⟨c, climber, _, hpos, hmaxc, _⟩
        omega
    have hsortnil : zoneSorted results cs = [] := by
      unfold zoneSorted
      rw [hcandnil]
      rfl
    refine ⟨none, hawardeq, ?_, hcand, ?_, ?_⟩
    · simp [maxZones_eq_zero_iff results |>.mp hmax]
    · intro w
      unfold zoneWinners
      rw [hsortnil, hcandnil]
      simp
    · intro a ha
      cases ha
  · -- someone qualifies: no crash, winners are the minimal-attempts candidates
    have hne : zoneCandidates results cs ≠ [] := by
      rcases maxVal_attained (zoneOnlyCounts results) (by omega) with ⟨p, hp, hp2⟩
      have hg := jmGet_of_mem_nodup _ (nodupKeys_zoneOnlyCounts results) p.1 p.2 hp
      rw [zoneOnlyCounts_get] at hg
      by_cases hc0 : zoneCount results p.1 = 0
      · rw [if_pos hc0] at hg
        cases hg
      · rw [if_neg hc0] at hg
        have hcnt : zoneCount results p.1 = p.2 := Option.some_inj.mp hg
        have hrow : ∃ r ∈ results, r.climber_id = p.1 := by
          have : 0 < results.countP (fun r =>
              r.climber_id == p.1
                && (jsEqNum r.zone_completed 1 && jsEqNum r.top_completed 0)) := by
            have : zoneCount results p.1 = p.2 := hcnt
            unfold zoneCount at this
            omega
          rcases List.countP_pos.mp this with ⟨r, hr, hpred⟩
          refine ⟨r, hr, ?_⟩
          simp only [Bool.and_eq_true, beq_iff_eq] at hpred
          exact hpred.1
        rcases hrow with ⟨r, hr, hrc⟩
        have hhas := hknown r hr
        rw [hrc] at hhas
        unfold jmHas at hhas
        rcases hcl : jmGet cs p.1 with _ | climber
        · rw [hcl] at hhas
          cases hhas
        · intro hcnil
          have : (⟨climber.climber_name, zoneCount results p.1,
              climber.total_attempts⟩ : ZoneCand) ∈ zoneCandidates results cs := by
            rw [zoneCandidates_mem]
            exact ⟨p.1, climber, hcl, by omega, by rw [hcnt, hp2], rfl⟩
          rw [hcnil] at this
          cases this
    rcases hsort : zoneSorted results cs with _ | ⟨c0, rest⟩
    · exfalso
      have hperm := insSortBy_perm
        (fun a b : ZoneCand => optLe a.attempts b.attempts)
        (zoneCandidates results cs)
      rw [show insSortBy (fun a b : ZoneCand => optLe a.attempts b.attempts)
          (zoneCandidates results cs) = zoneSorted results cs from rfl,
        hsort] at hperm
      exact hne (List.Perm.eq_nil hperm.symm)
    · have hsomeall : ∀ x ∈ (c0 :: rest), x.attempts.isSome = true := by
        intro x hx
        have hperm := insSortBy_perm
          (fun a b : ZoneCand => optLe a.attempts b.attempts)
          (zoneCandidates results cs)
        rw [show insSortBy (fun a b : ZoneCand => optLe a.attempts b.attempts)
            (zoneCandidates results cs) = zoneSorted results cs from rfl,
          hsort] at hperm
        have hxc : x ∈ zoneCandidates results cs := hperm.mem_iff.mp hx
        rcases (hcand x).mp hxc with ⟨c, climber, hcl, _, _, hxeq⟩
        rcases jmGet_mem cs c climber hcl with ⟨p, hp, hpv⟩
        have hps := hatt p hp
        rw [hpv] at hps
        rw [hxeq]
        exact hps
      have hfe : (c0 :: rest).filter
            (fun c => optStrictEq c.attempts c0.attempts)
          = (c0 :: rest).filter
            (fun c => decide (c.attempts = c0.attempts)) :=
        List.filter_congr (fun x hx => optStrictEq_eq_decide _ _
          (hsomeall x hx) (hsomeall c0 (List.mem_cons_self c0 rest)))
      have hwiff : ∀ w, w ∈ zoneWinners results cs ↔
          (w ∈ zoneCandidates results cs
            ∧ ∀ x ∈ zoneCandidates results cs,
                optLe w.attempts x.attempts = true) := by
        intro w
        have hzw : zoneWinners results cs
            = (c0 :: rest).filter
                (fun c => optStrictEq c.attempts c0.attempts) := by
          unfold zoneWinners
          rw [hsort]
        rw [hzw, hfe]
        exact winners_filter_iff (fun c : ZoneCand => c.attempts)
          (zoneCandidates results cs) c0 rest hsort w
      have hwne : zoneWinners results cs ≠ [] := by
        intro hnil
        have hc0 : c0 ∈ zoneWinners results cs := by
          rw [hwiff]
          have hperm := insSortBy_perm
            (fun a b : ZoneCand => optLe a.attempts b.attempts)
            (zoneCandidates results cs)
          rw [show insSortBy (fun a b : ZoneCand => optLe a.attempts b.attempts)
              (zoneCandidates results cs) = zoneSorted results cs from rfl,
            hsort] at hperm
          refine ⟨hperm.mem_iff.mp (List.mem_cons_self c0 rest), ?_⟩
          intro x hx
          exact head_insSortBy_le (keyedOptLe_total (fun c : ZoneCand => c.attempts))
            (keyedOptLe_trans (fun c : ZoneCand => c.attempts))
            (zoneCandidates results cs) c0 rest hsort x hx
        rw [hnil] at hc0
        cases hc0
      have hawardok : ∃ a, zoneHeroAward results cs = .ok (some a)
          ∧ a.climber_name = String.intercalate " & "
              ((zoneWinners results cs).map (fun c => c.climber_name))
          ∧ (a.is_tie = true ↔ 1 < (zoneWinners results cs).length) := by
        unfold zoneHeroAward
        rw [if_pos ⟨by
              rcases results with _ | ⟨r, rs⟩
              · exact absurd rfl hres
              · simp,
            by
              rcases cs with _ | ⟨p, ps⟩
              · exact absurd rfl hcs
              · simp⟩]
        rw [if_pos (by omega), hsort]
        rcases hw : zoneWinners results cs with _ | ⟨w, ws⟩
        · exact absurd hw hwne
        · rcases ws with _ | ⟨w2, ws2⟩
          · refine ⟨⟨w.climber_name, w.zones, w.attempts, false⟩, rfl, ?_, by simp⟩
            rfl
          · refine ⟨⟨String.intercalate " & "
                ((w :: w2 :: ws2).map (fun c : ZoneCand => c.climber_name)),
                w.zones, w.attempts, true⟩, rfl, rfl, ?_⟩
            constructor
            · intro _
              simp only [List.length_cons]
              omega
            · intro _
              rfl
      rcases hawardok with ⟨a, haward, hname, htie⟩
      refine ⟨some a, haward, ?_, hcand, hwiff, ?_⟩
      · constructor
        · intro hc
          cases hc
        · intro hall
          exact absurd ((maxZones_eq_zero_iff results).mpr hall) hmax
      · intro a' ha'
        injection ha' with ha2
        rw [← ha2]
        exact ⟨hname, htie⟩

theorem zone_hero_amended_witness :
    ∃ award, zoneHeroAward zw8Results zw8Stats = .ok award
      ∧ (award = none ↔ ∀ c : String, zoneCount zw8Results c = 0)
      ∧ (∀ x, x ∈ zoneCandidates zw8Results zw8Stats ↔
          ∃ c climber, jmGet zw8Stats c = some climber
            ∧ 0 < zoneCount zw8Results c
            ∧ (∀ c2 : String, zoneCount zw8Results c2 ≤ zoneCount zw8Results c)
            ∧ x = ⟨climber.climber_name, zoneCount zw8Results c,
                   climber.total_attempts⟩)
      ∧ (∀ w, w ∈ zoneWinners zw8Results zw8Stats ↔
          (w ∈ zoneCandidates zw8Results zw8Stats
            ∧ ∀ x ∈ zoneCandidates zw8Results zw8Stats,
                optLe w.attempts x.attempts = true))
      ∧ (∀ a, award = some a →
          a.climber_name = String.intercalate " & "
            ((zoneWinners zw8Results zw8Stats).map (fun c => c.climber_name))
          ∧ (a.is_tie = true ↔ 1 < (zoneWinners zw8Results zw8Stats).length)) :=
  zone_hero_amended zw8Results zw8Stats (by decide) (by decide) (by decide)
    (by decide)

-- ============================================
-- Claim C7 — Efficiency King tolerance tie
-- ============================================
theorem ratioDescLe_total (a b : EffCand) :
    ratioDescLe a b = true ∨ ratioDescLe b a = true := by
  unfold ratioDescLe
  rcases le_total b.ratio_val a.ratio_val with h | h
  · exact Or.inl (decide_eq_true h)
  · exact Or.inr (decide_eq_true h)

theorem ratioDescLe_trans (a b c : EffCand) (h1 : ratioDescLe a b = true)
    (h2 : ratioDescLe b c = true) : ratioDescLe a c = true := by
  unfold ratioDescLe at *
  exact decide_eq_true (le_trans (of_decide_eq_true h2) (of_decide_eq_true h1))

theorem exEff_candidates_eval : effCandidates exEffStats
    = [⟨"X", (999 : ℚ)/500⟩, ⟨"Y", 2⟩, ⟨"Z", (4001 : ℚ)/2000⟩] := by
  norm_num [effCandidates, exEffStats, List.foldl_cons, List.foldl_nil]

theorem exEff_sorted_eval : effSorted exEffStats
    = [⟨"Z", (4001 : ℚ)/2000⟩, ⟨"Y", 2⟩, ⟨"X", (999 : ℚ)/500⟩] := by
  unfold effSorted
  rw [exEff_candidates_eval]
  norm_num [insSortBy, insertLe, ratioDescLe, decide_eq_true_eq]

theorem exEff_winners_eval : effWinners exEffStats
    = [⟨"Z", (4001 : ℚ)/2000⟩, ⟨"Y", 2⟩] := by
  unfold effWinners
  rw [exEff_sorted_eval]
  norm_num [List.filter_cons, List.filter_nil, decide_eq_true_eq, abs_sub_lt_iff]

/-- C7: among climbers with positive total attempts, the Efficiency King
winner set is exactly the candidates whose exact ratio lies strictly within
0.001 of the maximum candidate ratio; the award joins all winner names and
flags a tie when there is more than one; on the spec's example (ratios
1.998, 2.000, 2.0005) Z and Y tie and X is excluded. -/
theorem efficiency_king_spec (cs : JMap ClimberStats) (q : ℚ)
    (hmax : ((effCandidates cs).map (fun c => c.ratio_val)).maximum
      = (q : WithBot ℚ)) :
    (∀ c, c ∈ effWinners cs ↔
      c ∈ effCandidates cs ∧ |c.ratio_val - q| < 1 / 1000)
    ∧ (∃ aw, efficiencyKingAward cs = some aw
        ∧ aw.climber_name = String.intercalate " & "
            ((effWinners cs).map (fun c => c.climber_name))
        ∧ (aw.is_tie = true ↔ 1 < (effWinners cs).length))
    ∧ efficiencyKingAward exEffStats
        = some ⟨"Z & Y", (4001 : ℚ)/2000, true⟩ := by
  rcases List.maximum_eq_coe_iff.mp hmax with ⟨hqmem, hqub⟩
  rcases List.mem_map.mp hqmem with ⟨cq, hcqmem, hcq⟩
  rcases hsort : effSorted cs with _ | ⟨c0, rest⟩
  · exfalso
    have hperm := insSortBy_perm ratioDescLe (effCandidates cs)
    rw [show insSortBy ratioDescLe (effCandidates cs) = effSorted cs from rfl,
      hsort] at hperm
    rw [List.Perm.eq_nil hperm.symm] at hcqmem
    cases hcqmem
  · have hperm := insSortBy_perm ratioDescLe (effCandidates cs)
    rw [show insSortBy ratioDescLe (effCandidates cs) = effSorted cs from rfl,
      hsort] at hperm
    have hc0mem : c0 ∈ effCandidates cs :=
      hperm.mem_iff.mp (List.mem_cons_self c0 rest)
    have hc0min : ∀ z ∈ effCandidates cs, ratioDescLe c0 z = true :=
      head_insSortBy_le ratioDescLe_total ratioDescLe_trans
        (effCandidates cs) c0 rest hsort
    have hc0q : c0.ratio_val = q := by
      refine le_antisymm (hqub _ (List.mem_map_of_mem _ hc0mem)) ?_
      have h1 := of_decide_eq_true (hc0min cq hcqmem)
      rw [hcq] at h1
      exact h1
    have hwiff : ∀ c, c ∈ effWinners cs ↔
        c ∈ effCandidates cs ∧ |c.ratio_val - q| < 1 / 1000 := by
      intro c
      unfold effWinners
      rw [hsort, List.mem_filter]
      constructor
      · rintro ⟨hmem, hpred⟩
        refine ⟨hperm.mem_iff.mp hmem, ?_⟩
        rw [← hc0q]
        exact of_decide_eq_true hpred
      · rintro ⟨hmem, habs⟩
        refine ⟨hperm.mem_iff.mpr hmem, decide_eq_true ?_⟩
        rw [hc0q]
        exact habs
    refine ⟨hwiff, ?_, ?_⟩
    · have hcsne : 0 < cs.length := by
        rcases cs with _ | ⟨p, ps⟩
        · rw [show effCandidates ([] : JMap ClimberStats) = [] from rfl]
            at hc0mem
          cases hc0mem
        · simp
      have hwne : effWinners cs ≠ [] := by
        intro h
        have hc0w : c0 ∈ effWinners cs := by
          rw [hwiff c0]
          refine ⟨hc0mem, ?_⟩
          rw [hc0q, sub_self, abs_zero]
          norm_num
        rw [h] at hc0w
        cases hc0w
      unfold efficiencyKingAward
      rw [if_pos hcsne, hsort]
      rcases hw : effWinners cs with _ | ⟨w, ws⟩
      · exact absurd hw hwne
      · rcases ws with _ | ⟨w2, ws2⟩
        · exact ⟨⟨w.climber_name, w.ratio_val, false⟩, rfl, rfl, by simp⟩
        · refine ⟨⟨String.intercalate " & "
              ((w :: w2 :: ws2).map (fun c : EffCand => c.climber_name)),
              w.ratio_val, true⟩, rfl, rfl, ?_⟩
          constructor
          · intro _
            simp only [List.length_cons]
            omega
          · intro _
            rfl
    · unfold efficiencyKingAward
      rw [if_pos (by rw [show exEffStats.length = 3 from rfl]; omega),
        exEff_sorted_eval, exEff_winners_eval]
      rfl

theorem efficiency_king_spec_witness :
    (((effCandidates exEffStats).map (fun c => c.ratio_val)).maximum
        = (((4001 : ℚ)/2000 : ℚ) : WithBot ℚ))
    ∧ efficiencyKingAward exEffStats
        = some ⟨"Z & Y", (4001 : ℚ)/2000, true⟩ := by
  have hmax : ((effCandidates exEffStats).map (fun c => c.ratio_val)).maximum
      = (((4001 : ℚ)/2000 : ℚ) : WithBot ℚ) := by
    have hm : (([⟨"X", (999 : ℚ)/500⟩, ⟨"Y", 2⟩,
        ⟨"Z", (4001 : ℚ)/2000⟩] : List EffCand).map
        (fun c => c.ratio_val)) = [(999 : ℚ)/500, 2, (4001 : ℚ)/2000] := rfl
    rw [exEff_candidates_eval, hm, List.maximum_eq_coe_iff]
    constructor
    · exact List.mem_cons.mpr (Or.inr (List.mem_cons.mpr
        (Or.inr (List.mem_cons.mpr (Or.inl rfl)))))
    · intro a ha
      rcases List.mem_cons.mp ha with rfl | ha
      · norm_num
      · rcases List.mem_cons.mp ha with rfl | ha
        · norm_num
        · rcases List.mem_cons.mp ha with rfl | ha
          · norm_num
          · cases ha
  exact ⟨hmax, (efficiency_king_spec exEffStats ((4001 : ℚ)/2000) hmax).2.2⟩

-- ============================================
-- Claim C6 — Perfect Score
-- ============================================
theorem append_colon_inj (as : List Char) (bs : List Char) :
    ∀ (cs ds : List Char), ':' ∉ as → ':' ∉ cs →
      as ++ ':' :: bs = cs ++ ':' :: ds → as = cs ∧ bs = ds := by
  induction as with
  | nil =>
      intro cs ds _ hc h
      cases cs with
      | nil =>
          simp only [List.nil_append] at h
          refine ⟨rfl, ?_⟩
          injection h
      | cons y cs' =>
          simp only [List.nil_append, List.cons_append] at h
          injection h with h1 h2
          exfalso
          exact hc (h1 ▸ List.mem_cons_self y cs')
  | cons x as' ih =>
      intro cs ds ha hc h
      cases cs with
      | nil =>
          simp only [List.cons_append, List.nil_append] at h
          injection h with h1 h2
          exact absurd (h1 ▸ List.mem_cons_self x as') ha
      | cons y cs' =>
          simp only [List.cons_append] at h
          injection h with h1 h2
          have ha' : ':' ∉ as' := fun hm => ha (List.mem_cons_of_mem x hm)
          have hc' : ':' ∉ cs' := fun hm => hc (List.mem_cons_of_mem y hm)
          rcases ih cs' ds ha' hc' h2 with ⟨heq, hbd⟩
          exact ⟨by rw [h1, heq], hbd⟩

theorem colon_concat_inj (a b c d : String) (ha : ':' ∉ a.data)
    (hc : ':' ∉ c.data) (h : a ++ ":" ++ b = c ++ ":" ++ d) :
    a = c ∧ b = d := by
  have hdata : a.data ++ ':' :: b.data = c.data ++ ':' :: d.data := by
    have := congrArg String.data h
    simpa [String.data_append] using this
  rcases append_colon_inj a.data b.data c.data d.data ha hc hdata with ⟨h1, h2⟩
  exact ⟨String.ext h1, String.ext h2⟩

theorem psBoulderSets_get_some (results : List ResultRow)
    (m0 : JMap (List String)) (comp : String) (s0 : List String)
    (h0 : jmGet m0 comp = some s0) :
    jmGet (results.foldl
      (fun bc r =>
        jmModify (if jmHas bc r.comp_id then bc else jmSet bc r.comp_id [])
          r.comp_id
          (fun s => if r.boulder_id ∈ s then s else s ++ [r.boulder_id])) m0) comp
      = some ((results.filter (fun r : ResultRow => r.comp_id == comp)).foldl
          (fun s r => if r.boulder_id ∈ s then s else s ++ [r.boulder_id]) s0) := by
  induction results generalizing m0 s0 with
  | nil => simpa using h0
  | cons r rest ih =>
      rw [List.foldl_cons, List.filter_cons]
      by_cases hc : r.comp_id = comp
      · have hbeq : (r.comp_id == comp) = true := by simp [hc]
        rw [hbeq, if_pos rfl, List.foldl_cons]
        have hhas : jmHas m0 r.comp_id = true := by
          rw [hc]
          unfold jmHas
          rw [h0]
          rfl
        rw [if_pos hhas]
        refine ih _ _ ?_
        rw [← hc] at h0 ⊢
        rw [jmGet_modify_self, h0]
        rfl
      · have hbeq : (r.comp_id == comp) = false := by simp [hc]
        rw [hbeq]
        simp only [Bool.false_eq_true, if_false]
        refine ih _ s0 ?_
        have hne : comp ≠ r.comp_id := fun hk => hc hk.symm
        rw [jmGet_modify_ne _ _ _ comp hne]
        by_cases hh : jmHas m0 r.comp_id
        · rw [if_pos hh]
          exact h0
        · rw [if_neg hh, jmGet_set_ne m0 r.comp_id [] comp hne]
          exact h0

theorem psBoulderSets_get_none (results : List ResultRow)
    (m0 : JMap (List String)) (comp : String) (h0 : jmGet m0 comp = none) :
    jmGet (results.foldl
      (fun bc r =>
        jmModify (if jmHas bc r.comp_id then bc else jmSet bc r.comp_id [])
          r.comp_id
          (fun s => if r.boulder_id ∈ s then s else s ++ [r.boulder_id])) m0) comp
      = if (results.filter (fun r : ResultRow => r.comp_id == comp)) = [] then none
        else some ((results.filter (fun r : ResultRow => r.comp_id == comp)).foldl
          (fun s r => if r.boulder_id ∈ s then s else s ++ [r.boulder_id]) []) := by
  induction results generalizing m0 with
  | nil => simpa using h0
  | cons r rest ih =>
      rw [List.foldl_cons, List.filter_cons]
      by_cases hc : r.comp_id = comp
      · have hbeq : (r.comp_id == comp) = true := by simp [hc]
        rw [hbeq, if_pos rfl]
        have hhas : jmHas m0 r.comp_id = false := by
          rw [hc]
          unfold jmHas
          rw [h0]
          rfl
        rw [if_neg (by rw [hhas]; exact Bool.false_ne_true)]
        have hg1 : jmGet (jmModify (jmSet m0 r.comp_id []) r.comp_id
            (fun s => if r.boulder_id ∈ s then s else s ++ [r.boulder_id])) comp
            = some [r.boulder_id] := by
          rw [← hc, jmGet_modify_self, jmGet_set_self]
          simp
        rw [psBoulderSets_get_some rest _ comp [r.boulder_id] hg1]
        rw [if_neg (by simp), List.foldl_cons]
        have : (if r.boulder_id ∈ ([] : List String) then ([] : List String)
            else [] ++ [r.boulder_id]) = [r.boulder_id] := by simp
        rw [this]
      · have hbeq : (r.comp_id == comp) = false := by simp [hc]
        rw [hbeq]
        simp only [Bool.false_eq_true, if_false]
        refine ih _ ?_
        have hne : comp ≠ r.comp_id := fun hk => hc hk.symm
        rw [jmGet_modify_ne _ _ _ comp hne]
        by_cases hh : jmHas m0 r.comp_id
        · rw [if_pos hh]
          exact h0
        · rw [if_neg hh, jmGet_set_ne m0 r.comp_id [] comp hne]
          exact h0

theorem boulderSet_getD_length (results : List ResultRow) (comp : String) :
    ((jmGet (psBoulderSets results) comp).getD []).length
      = distinctBoulders results comp := by
  have hmain : jmGet (psBoulderSets results) comp
      = if (results.filter (fun r : ResultRow => r.comp_id == comp)) = [] then none
        else some ((results.filter (fun r : ResultRow => r.comp_id == comp)).foldl
          (fun s r => if r.boulder_id ∈ s then s else s ++ [r.boulder_id]) []) :=
    psBoulderSets_get_none results [] comp rfl
  rw [hmain]
  unfold distinctBoulders firstDedup
  by_cases hf : (results.filter (fun r : ResultRow => r.comp_id == comp)) = []
  · rw [if_pos hf, hf]
    simp
  · rw [if_neg hf, List.foldl_map]
    rfl

theorem mem_jmSet {α : Type} (m : JMap α) (k : String) (v : α) :
    ∀ p ∈ jmSet m k v, p ∈ m ∨ p = (k, v) := by
  intro p hp
  unfold jmSet at hp
  by_cases hh : jmHas m k
  · rw [if_pos hh] at hp
    rcases List.mem_map.mp hp with ⟨q, hq, hpq⟩
    by_cases hqk : q.1 = k
    · rw [if_pos hqk] at hpq
      exact Or.inr (by rw [← hpq, hqk])
    · rw [if_neg hqk] at hpq
      exact Or.inl (hpq ▸ hq)
  · rw [if_neg hh] at hp
    rcases List.mem_append.mp hp with hp' | hp'
    · exact Or.inl hp'
    · exact Or.inr (by simpa using hp')

theorem mem_jmModify {α : Type} (m : JMap α) (k : String) (f : α → α) :
    ∀ p ∈ jmModify m k f, ∃ q ∈ m, p.1 = q.1 ∧ (p.2 = f q.2 ∨ p.2 = q.2) := by
  intro p hp
  rcases List.mem_map.mp hp with ⟨q, hq, hpq⟩
  by_cases hqk : q.1 = k
  · rw [if_pos hqk] at hpq
    exact ⟨q, hq, by rw [← hpq], Or.inl (by rw [← hpq])⟩
  · rw [if_neg hqk] at hpq
    exact ⟨q, hq, by rw [hpq], Or.inr (by rw [hpq])⟩

theorem nodupKeys_psClimberTops (results : List ResultRow) :
    (jmKeys (psClimberTops results)).Nodup := by
  unfold psClimberTops
  suffices h : ∀ m0 : JMap TopRec, (jmKeys m0).Nodup →
      (jmKeys (results.foldl
        (fun ct r =>
          if jsEqNum r.top_completed 1 then
            jmModify (if jmHas ct (r.comp_id ++ ":" ++ r.climber_id) then ct
                      else jmSet ct (r.comp_id ++ ":" ++ r.climber_id)
                        ⟨r.climber_id, r.comp_id, 0⟩)
              (r.comp_id ++ ":" ++ r.climber_id)
              (fun t => { t with tops := t.tops + 1 })
          else ct) m0)).Nodup by
    exact h [] (by simp [jmKeys])
  induction results with
  | nil => exact fun m0 h0 => h0
  | cons r rest ih =>
      intro m0 h0
      rw [List.foldl_cons]
      by_cases hcond : jsEqNum r.top_completed 1 = true
      · rw [if_pos hcond]
        refine ih _ ?_
        rw [jmKeys_modify]
        by_cases hh : jmHas m0 (r.comp_id ++ ":" ++ r.climber_id)
        · rw [if_pos hh]
          exact h0
        · rw [if_neg hh]
          exact nodupKeys_jmSet m0 _ _ h0
      · rw [if_neg hcond]
        exact ih m0 h0

theorem psClimberTops_entry (results : List ResultRow) :
    ∀ p ∈ psClimberTops results,
      p.1 = p.2.compId ++ ":" ++ p.2.climberId
      ∧ ∃ r ∈ results, r.climber_id = p.2.climberId ∧ r.comp_id = p.2.compId := by
  unfold psClimberTops
  suffices h : ∀ m0 : JMap TopRec,
      (∀ p ∈ m0, p.1 = p.2.compId ++ ":" ++ p.2.climberId
        ∧ ∃ r ∈ results, r.climber_id = p.2.climberId ∧ r.comp_id = p.2.compId) →
      ∀ rs : List ResultRow, (∀ r ∈ rs, r ∈ results) →
      ∀ p ∈ rs.foldl
        (fun ct r =>
          if jsEqNum r.top_completed 1 then
            jmModify (if jmHas ct (r.comp_id ++ ":" ++ r.climber_id) then ct
                      else jmSet ct (r.comp_id ++ ":" ++ r.climber_id)
                        ⟨r.climber_id, r.comp_id, 0⟩)
              (r.comp_id ++ ":" ++ r.climber_id)
              (fun t => { t with tops := t.tops + 1 })
          else ct) m0,
        p.1 = p.2.compId ++ ":" ++ p.2.climberId
        ∧ ∃ r ∈ results, r.climber_id = p.2.climberId ∧ r.comp_id = p.2.compId by
    exact h [] (by intro p hp; cases hp) results (fun r hr => hr)
  intro m0 h0 rs
  induction rs generalizing m0 with
  | nil => exact fun _ p hp => h0 p hp
  | cons r rest ih =>
      intro hrs
      rw [List.foldl_cons]
      by_cases hcond : jsEqNum r.top_completed 1 = true
      · rw [if_pos hcond]
        refine ih _ ?_ (fun q hq => hrs q (List.mem_cons_of_mem r hq))
        intro p hp
        rcases mem_jmModify _ _ _ p hp with ⟨q, hq, hp1, hp2⟩
        have hq' : q ∈ m0 ∨ q = (r.comp_id ++ ":" ++ r.climber_id,
            (⟨r.climber_id, r.comp_id, 0⟩ : TopRec)) := by
          by_cases hh : jmHas m0 (r.comp_id ++ ":" ++ r.climber_id)
          · rw [if_pos hh] at hq
            exact Or.inl hq
          · rw [if_neg hh] at hq
            exact mem_jmSet m0 _ _ q hq
        have hqP : q.1 = q.2.compId ++ ":" ++ q.2.climberId
            ∧ ∃ rr ∈ results, rr.climber_id = q.2.climberId
              ∧ rr.comp_id = q.2.compId := by
          rcases hq' with hq' | hq'
          · exact h0 q hq'
          · rw [hq']
            exact ⟨rfl, r, hrs r (List.mem_cons_self r rest), rfl, rfl⟩
        rcases hp2 with hp2 | hp2
        · constructor
          · rw [hp1, hp2]
            exact hqP.1
          · rw [hp2]
            exact hqP.2
        · constructor
          · rw [hp1, hp2]
            exact hqP.1
          · rw [hp2]
            exact hqP.2
      · rw [if_neg hcond]
        exact ih m0 h0 (fun q hq => hrs q (List.mem_cons_of_mem r hq))

theorem topCount_cons (r : ResultRow) (rest : List ResultRow) (cl comp : String) :
    topCount (r :: rest) cl comp
      = topCount rest cl comp
        + (if r.comp_id == comp && (r.climber_id == cl && jsEqNum r.top_completed 1)
           then 1 else 0) := by
  unfold topCount
  rw [List.countP_cons]

theorem natIf_true : (if (true : Bool) = true then (1 : Nat) else 0) = 1 := rfl

theorem natIf_false : (if (false : Bool) = true then (1 : Nat) else 0) = 0 := rfl

theorem psClimberTops_get_some (rs : List ResultRow) (m0 : JMap TopRec)
    (cl comp : String) (hcomp : ':' ∉ comp.data)
    (hcolon : ∀ r ∈ rs, ':' ∉ r.comp_id.data ∧ ':' ∉ r.climber_id.data)
    (t0 : TopRec) (h0 : jmGet m0 (comp ++ ":" ++ cl) = some t0) :
    jmGet (rs.foldl
      (fun ct r =>
        if jsEqNum r.top_completed 1 then
          jmModify (if jmHas ct (r.comp_id ++ ":" ++ r.climber_id) then ct
                    else jmSet ct (r.comp_id ++ ":" ++ r.climber_id)
                      ⟨r.climber_id, r.comp_id, 0⟩)
            (r.comp_id ++ ":" ++ r.climber_id)
            (fun t => { t with tops := t.tops + 1 })
        else ct) m0) (comp ++ ":" ++ cl)
      = some { t0 with tops := t0.tops + topCount rs cl comp } := by
  revert hcolon h0
  induction rs generalizing m0 t0 with
  | nil =>
      intro _ h0
      rw [List.foldl_nil, h0]
      unfold topCount
      simp
  | cons r rest ih =>
      intro hcolon h0
      rw [List.foldl_cons, topCount_cons]
      have hrcolon := hcolon r (List.mem_cons_self r rest)
      have hcolon' : ∀ q ∈ rest, ':' ∉ q.comp_id.data ∧ ':' ∉ q.climber_id.data :=
        fun q hq => hcolon q (List.mem_cons_of_mem r hq)
      by_cases hcond : jsEqNum r.top_completed 1 = true
      · rw [if_pos hcond]
        by_cases hmatch : r.comp_id = comp ∧ r.climber_id = cl
        · have hkey : r.comp_id ++ ":" ++ r.climber_id = comp ++ ":" ++ cl := by
            rw [hmatch.1, hmatch.2]
          have hhas : jmHas m0 (r.comp_id ++ ":" ++ r.climber_id) = true := by
            rw [hkey]
            unfold jmHas
            rw [h0]
            rfl
          rw [if_pos hhas, hkey]
          have h1 : jmGet (jmModify m0 (comp ++ ":" ++ cl)
              (fun t => { t with tops := t.tops + 1 })) (comp ++ ":" ++ cl)
              = some { t0 with tops := t0.tops + 1 } := by
            rw [jmGet_modify_self, h0]
            rfl
          rw [ih _ _ hcolon' h1]
          have hpred : (r.comp_id == comp
              && (r.climber_id == cl && jsEqNum r.top_completed 1)) = true := by
            simp [hmatch.1, hmatch.2, hcond]
          rw [hpred, natIf_true]
          simp only [Option.some_inj, TopRec.mk.injEq, true_and]
          omega
        · have hkey : r.comp_id ++ ":" ++ r.climber_id ≠ comp ++ ":" ++ cl := by
            intro hk
            exact hmatch (colon_concat_inj _ _ _ _ hrcolon.1 hcomp hk)
          have hget : jmGet (jmModify
              (if jmHas m0 (r.comp_id ++ ":" ++ r.climber_id) then m0
               else jmSet m0 (r.comp_id ++ ":" ++ r.climber_id)
                 ⟨r.climber_id, r.comp_id, 0⟩)
              (r.comp_id ++ ":" ++ r.climber_id)
              (fun t => { t with tops := t.tops + 1 })) (comp ++ ":" ++ cl)
              = some t0 := by
            rw [jmGet_modify_ne _ _ _ _ (fun hk => hkey hk.symm)]
            by_cases hh : jmHas m0 (r.comp_id ++ ":" ++ r.climber_id)
            · rw [if_pos hh]
              exact h0
            · rw [if_neg hh,
                jmGet_set_ne _ _ _ _ (fun hk => hkey hk.symm)]
              exact h0
          rw [ih _ _ hcolon' hget]
          have hpred : (r.comp_id == comp
              && (r.climber_id == cl && jsEqNum r.top_completed 1)) = false := by
            by_cases h1 : r.comp_id = comp
            · by_cases h2 : r.climber_id = cl
              · exact absurd ⟨h1, h2⟩ hmatch
              · simp [h2]
            · simp [h1]
          rw [hpred, natIf_false]
          simp
      · rw [if_neg hcond]
        have hpred : (r.comp_id == comp
            && (r.climber_id == cl && jsEqNum r.top_completed 1)) = false := by
          rcases hb : jsEqNum r.top_completed 1
          · simp
          · exact absurd hb hcond
        rw [ih _ _ hcolon' h0, hpred, natIf_false]
        simp

theorem psClimberTops_get_none (rs : List ResultRow) (m0 : JMap TopRec)
    (cl comp : String) (hcomp : ':' ∉ comp.data)
    (hcolon : ∀ r ∈ rs, ':' ∉ r.comp_id.data ∧ ':' ∉ r.climber_id.data)
    (h0 : jmGet m0 (comp ++ ":" ++ cl) = none) :
    jmGet (rs.foldl
      (fun ct r =>
        if jsEqNum r.top_completed 1 then
          jmModify (if jmHas ct (r.comp_id ++ ":" ++ r.climber_id) then ct
                    else jmSet ct (r.comp_id ++ ":" ++ r.climber_id)
                      ⟨r.climber_id, r.comp_id, 0⟩)
            (r.comp_id ++ ":" ++ r.climber_id)
            (fun t => { t with tops := t.tops + 1 })
        else ct) m0) (comp ++ ":" ++ cl)
      = if topCount rs cl comp = 0 then none
        else some ⟨cl, comp, topCount rs cl comp⟩ := by
  revert hcolon h0
  induction rs generalizing m0 with
  | nil =>
      intro _ h0
      rw [List.foldl_nil]
      unfold topCount
      simpa using h0
  | cons r rest ih =>
      intro hcolon h0
      rw [List.foldl_cons, topCount_cons]
      have hrcolon := hcolon r (List.mem_cons_self r rest)
      have hcolon' : ∀ q ∈ rest, ':' ∉ q.comp_id.data ∧ ':' ∉ q.climber_id.data :=
        fun q hq => hcolon q (List.mem_cons_of_mem r hq)
      by_cases hcond : jsEqNum r.top_completed 1 = true
      · rw [if_pos hcond]
        by_cases hmatch : r.comp_id = comp ∧ r.climber_id = cl
        · have hkey : r.comp_id ++ ":" ++ r.climber_id = comp ++ ":" ++ cl := by
            rw [hmatch.1, hmatch.2]
          have hhas : jmHas m0 (r.comp_id ++ ":" ++ r.climber_id) = false := by
            rw [hkey]
            unfold jmHas
            rw [h0]
            rfl
          rw [if_neg (by rw [hhas]; exact Bool.false_ne_true), hkey]
          have h1 : jmGet (jmModify
              (jmSet m0 (comp ++ ":" ++ cl) ⟨r.climber_id, r.comp_id, 0⟩)
              (comp ++ ":" ++ cl)
              (fun t => { t with tops := t.tops + 1 })) (comp ++ ":" ++ cl)
              = some ⟨r.climber_id, r.comp_id, 1⟩ := by
            rw [jmGet_modify_self, jmGet_set_self]
            rfl
          rw [psClimberTops_get_some rest _ cl comp hcomp hcolon' _ h1]
          have hpred : (r.comp_id == comp
              && (r.climber_id == cl && jsEqNum r.top_completed 1)) = true := by
            simp [hmatch.1, hmatch.2, hcond]
          rw [hpred, natIf_true]
          rw [if_neg (by omega)]
          simp only [Option.some_inj, TopRec.mk.injEq]
          exact ⟨hmatch.2, hmatch.1, by omega⟩
        · have hkey : r.comp_id ++ ":" ++ r.climber_id ≠ comp ++ ":" ++ cl := by
            intro hk
            exact hmatch (colon_concat_inj _ _ _ _ hrcolon.1 hcomp hk)
          have hget : jmGet (jmModify
              (if jmHas m0 (r.comp_id ++ ":" ++ r.climber_id) then m0
               else jmSet m0 (r.comp_id ++ ":" ++ r.climber_id)
                 ⟨r.climber_id, r.comp_id, 0⟩)
              (r.comp_id ++ ":" ++ r.climber_id)
              (fun t => { t with tops := t.tops + 1 })) (comp ++ ":" ++ cl)
              = none := by
            rw [jmGet_modify_ne _ _ _ _ (fun hk => hkey hk.symm)]
            by_cases hh : jmHas m0 (r.comp_id ++ ":" ++ r.climber_id)
            · rw [if_pos hh]
              exact h0
            · rw [if_neg hh,
                jmGet_set_ne _ _ _ _ (fun hk => hkey hk.symm)]
              exact h0
          rw [ih _ hcolon' hget]
          have hpred : (r.comp_id == comp
              && (r.climber_id == cl && jsEqNum r.top_completed 1)) = false := by
            by_cases h1 : r.comp_id = comp
            · by_cases h2 : r.climber_id = cl
              · exact absurd ⟨h1, h2⟩ hmatch
              · simp [h2]
            · simp [h1]
          rw [hpred, natIf_false]
          simp
      · rw [if_neg hcond]
        have hpred : (r.comp_id == comp
            && (r.climber_id == cl && jsEqNum r.top_completed 1)) = false := by
          rcases hb : jsEqNum r.top_completed 1
          · simp
          · exact absurd hb hcond
        rw [ih _ hcolon' h0, hpred, natIf_false]
        simp

theorem mem_foldl_append {α : Type} (l : List (String × List α))
    (acc : List α) (x : α) :
    (x ∈ l.foldl (fun a p => a ++ p.2) acc) ↔ x ∈ acc ∨ ∃ g ∈ l, x ∈ g.2 := by
  induction l generalizing acc with
  | nil =>
      rw [List.foldl_nil]
      simp
  | cons p ps ih =>
      rw [List.foldl_cons, ih]
      constructor
      · rintro (h | h)
        · rcases List.mem_append.mp h with h' | h'
          · exact Or.inl h'
          · exact Or.inr ⟨p, List.mem_cons_self p ps, h'⟩
        · rcases h with ⟨g, hg, hx⟩
          exact Or.inr ⟨g, List.mem_cons_of_mem p hg, hx⟩
      · rintro (h | h)
        · exact Or.inl (List.mem_append.mpr (Or.inl h))
        · rcases h with ⟨g, hg, hx⟩
          rcases List.mem_cons.mp hg with rfl | hg'
          · exact Or.inl (List.mem_append.mpr (Or.inr hx))
          · exact Or.inr ⟨g, hg', hx⟩

theorem values_jmModify_append {α : Type} (m : JMap (List α)) (k : String)
    (x : α) (e : α) :
    (∃ g ∈ jmModify (if jmHas m k then m else jmSet m k [])
        k (fun l => l ++ [x]), e ∈ g.2)
      ↔ (∃ g ∈ m, e ∈ g.2) ∨ e = x := by
  constructor
  · rintro ⟨g, hg, he⟩
    rcases mem_jmModify _ _ _ g hg with ⟨q, hq, _, hg2⟩
    have hqm : q ∈ m ∨ q = (k, ([] : List α)) := by
      by_cases hh : jmHas m k
      · rw [if_pos hh] at hq
        exact Or.inl hq
      · rw [if_neg hh] at hq
        exact mem_jmSet m k [] q hq
    rcases hg2 with hg2 | hg2
    · rw [hg2] at he
      rcases List.mem_append.mp he with he' | he'
      · rcases hqm with hqm | hqm
        · exact Or.inl ⟨q, hqm, he'⟩
        · rw [hqm] at he'
          cases he'
      · exact Or.inr (by simpa using he')
    · rw [hg2] at he
      rcases hqm with hqm | hqm
      · exact Or.inl ⟨q, hqm, he⟩
      · rw [hqm] at he
        cases he
  · rintro (⟨g, hg, he⟩ | rfl)
    · by_cases hh : jmHas m k
      · rw [if_pos hh]
        refine ⟨(if g.1 = k then (g.1, g.2 ++ [x]) else g), List.mem_map_of_mem _ hg, ?_⟩
        by_cases hgk : g.1 = k
        · rw [if_pos hgk]
          exact List.mem_append.mpr (Or.inl he)
        · rw [if_neg hgk]
          exact he
      · rw [if_neg hh]
        have hgm : g ∈ jmSet m k [] := by
          unfold jmSet
          rw [if_neg hh]
          exact List.mem_append.mpr (Or.inl hg)
        refine ⟨(if g.1 = k then (g.1, g.2 ++ [x]) else g), List.mem_map_of_mem _ hgm, ?_⟩
        by_cases hgk : g.1 = k
        · rw [if_pos hgk]
          exact List.mem_append.mpr (Or.inl he)
        · rw [if_neg hgk]
          exact he
    · by_cases hh : jmHas m k
      · rw [if_pos hh]
        have hk' : k ∈ jmKeys m := (jmHas_iff_mem_keys m k).mp hh
        rcases List.mem_map.mp hk' with ⟨q, hq, hqk⟩
        refine ⟨(q.1, q.2 ++ [e]), ?_, List.mem_append.mpr (Or.inr (by simp))⟩
        have heq : (if q.1 = k then (q.1, q.2 ++ [e]) else q) = (q.1, q.2 ++ [e]) := by
          rw [if_pos hqk]
        rw [← heq]
        exact List.mem_map_of_mem _ hq
      · rw [if_neg hh]
        have hkm : (k, ([] : List α)) ∈ jmSet m k [] := by
          unfold jmSet
          rw [if_neg hh]
          exact List.mem_append.mpr (Or.inr (by simp))
        refine ⟨(k, [] ++ [e]), ?_, List.mem_append.mpr (Or.inr (by simp))⟩
        have heq : (if ((k, ([] : List α)) : String × List α).1 = k
            then (k, ([] : List α) ++ [e]) else (k, [])) = (k, ([] : List α) ++ [e]) := by
          rw [if_pos rfl]
        rw [← heq]
        exact List.mem_map_of_mem _ hkm

theorem perfectGroups_values (results : List ResultRow)
    (stats : JMap ClimberStats) (e : PerfectEntry) :
    (∃ g ∈ perfectGroups results stats, e ∈ g.2)
      ↔ ∃ p ∈ psClimberTops results, psQualifies results stats p e := by
  unfold perfectGroups
  suffices h : ∀ (cs : List (String × TopRec)) (m0 : JMap (List PerfectEntry)),
      ((∃ g ∈ cs.foldl
          (fun m p =>
            if p.2.tops = ((jmGet (psBoulderSets results) p.2.compId).getD []).length
                ∧ 0 < ((jmGet (psBoulderSets results) p.2.compId).getD []).length then
              match jmGet stats p.2.climberId with
              | some climber =>
                jmModify (if jmHas m p.2.compId then m else jmSet m p.2.compId [])
                  p.2.compId
                  (fun l => l ++ [⟨climber.climber_name, p.2.climberId, p.2.compId,
                    ((jmGet (psBoulderSets results) p.2.compId).getD []).length,
                    compAttempts results p.2.climberId p.2.compId⟩])
              | none => m
            else m) m0, e ∈ g.2)
        ↔ (∃ g ∈ m0, e ∈ g.2) ∨ ∃ p ∈ cs, psQualifies results stats p e) by
    exact ((h (psClimberTops results) []).trans (by simp))
  intro cs
  induction cs with
  | nil =>
      intro m0
      rw [List.foldl_nil]
      simp
  | cons p ps ih =>
      intro m0
      rw [List.foldl_cons]
      by_cases hcond : p.2.tops
            = ((jmGet (psBoulderSets results) p.2.compId).getD []).length
          ∧ 0 < ((jmGet (psBoulderSets results) p.2.compId).getD []).length
      · rw [if_pos hcond]
        rcases hget : jmGet stats p.2.climberId with _ | c
        · simp only [hget]
          rw [ih m0]
          constructor
          · rintro (h | h)
            · exact Or.inl h
            · rcases h with ⟨q, hq, hc⟩
              exact Or.inr ⟨q, List.mem_cons_of_mem p hq, hc⟩
          · rintro (h | h)
            · exact Or.inl h
            · rcases h with ⟨q, hq, hc⟩
              rcases List.mem_cons.mp hq with rfl | hq'
              · rcases hc with ⟨c, hc1, _⟩
                rw [hget] at hc1
                cases hc1
              · exact Or.inr ⟨q, hq', hc⟩
        · simp only [hget]
          rw [ih, values_jmModify_append]
          have hq : p.2.tops = distinctBoulders results p.2.compId
              ∧ 0 < distinctBoulders results p.2.compId := by
            rw [← boulderSet_getD_length]
            exact hcond
          constructor
          · rintro ((h | h) | h)
            · exact Or.inl h
            · refine Or.inr ⟨p, List.mem_cons_self p ps, c, hget, hq.1, hq.2, ?_⟩
              rw [h, boulderSet_getD_length]
            · rcases h with ⟨q, hqm, hc⟩
              exact Or.inr ⟨q, List.mem_cons_of_mem p hqm, hc⟩
          · rintro (h | h)
            · exact Or.inl (Or.inl h)
            · rcases h with ⟨q, hqm, hc⟩
              rcases List.mem_cons.mp hqm with rfl | hq'
              · rcases hc with ⟨c', hc1, _, _, hc4⟩
                rw [hget] at hc1
                cases hc1
                refine Or.inl (Or.inr ?_)
                rw [hc4, boulderSet_getD_length]
              · exact Or.inr ⟨q, hq', hc⟩
      · rw [if_neg hcond]
        rw [ih m0]
        constructor
        · rintro (h | h)
          · exact Or.inl h
          · rcases h with ⟨q, hq, hc⟩
            exact Or.inr ⟨q, List.mem_cons_of_mem p hq, hc⟩
        · rintro (h | h)
          · exact Or.inl h
          · rcases h with ⟨q, hq, hc⟩
            rcases List.mem_cons.mp hq with rfl | hq'
            · rcases hc with ⟨c, _, hc2, hc3, _⟩
              rw [← boulderSet_getD_length] at hc2 hc3
              exact absurd ⟨hc2, hc3⟩ hcond
            · exact Or.inr ⟨q, hq', hc⟩

theorem perfectEntries_mem (results : List ResultRow) (stats : JMap ClimberStats)
    (hcolon : ∀ r ∈ results, ':' ∉ r.comp_id.data ∧ ':' ∉ r.climber_id.data)
    (e : PerfectEntry) :
    e ∈ perfectEntries results stats
      ↔ ∃ cl comp : String, ∃ c : ClimberStats,
          jmGet stats cl = some c
          ∧ 0 < topCount results cl comp
          ∧ topCount results cl comp = distinctBoulders results comp
          ∧ e = ⟨c.climber_name, cl, comp, distinctBoulders results comp,
                 compAttempts results cl comp⟩ := by
  have hPT : psClimberTops results
      = results.foldl
          (fun ct r =>
            if jsEqNum r.top_completed 1 then
              jmModify (if jmHas ct (r.comp_id ++ ":" ++ r.climber_id) then ct
                        else jmSet ct (r.comp_id ++ ":" ++ r.climber_id)
                          ⟨r.climber_id, r.comp_id, 0⟩)
                (r.comp_id ++ ":" ++ r.climber_id)
                (fun t => { t with tops := t.tops + 1 })
            else ct) [] := rfl
  have hmem0 : e ∈ perfectEntries results stats
      ↔ ∃ g ∈ perfectGroups results stats, e ∈ g.2 := by
    unfold perfectEntries
    rw [mem_foldl_append]
    simp
  rw [hmem0, perfectGroups_values]
  constructor
  · rintro ⟨p, hp, c, hc1, hc2, hc3, hc4⟩
    rcases psClimberTops_entry results p hp with ⟨hkey, r, hr, hrcl, hrcomp⟩
    have hcomp : ':' ∉ p.2.compId.data := by
      rw [← hrcomp]
      exact (hcolon r hr).1
    have hgmem : jmGet (psClimberTops results) p.1 = some p.2 :=
      jmGet_of_mem_nodup _ (nodupKeys_psClimberTops results) _ _ hp
    rw [hkey] at hgmem
    have hg := psClimberTops_get_none results [] p.2.climberId p.2.compId
      hcomp hcolon rfl
    rw [← hPT] at hg
    rw [hgmem] at hg
    have htc : topCount results p.2.climberId p.2.compId ≠ 0 := by
      intro h0
      rw [if_pos h0] at hg
      cases hg
    rw [if_neg htc] at hg
    have hp2 : p.2 = ⟨p.2.climberId, p.2.compId,
        topCount results p.2.climberId p.2.compId⟩ := by
      injection hg with hg'
    refine ⟨p.2.climberId, p.2.compId, c, hc1, Nat.pos_of_ne_zero htc, ?_, ?_⟩
    · have : p.2.tops = topCount results p.2.climberId p.2.compId := by
        rw [hp2]
      rw [← this]
      exact hc2
    · exact hc4
  · rintro ⟨cl, comp, c, h1, h2, h3, he⟩
    have hrow : ∃ r ∈ results,
        (r.comp_id == comp && (r.climber_id == cl
          && jsEqNum r.top_completed 1)) = true := by
      have h2' : 0 < List.countP
          (fun r : ResultRow =>
            r.comp_id == comp && (r.climber_id == cl && jsEqNum r.top_completed 1))
          results := h2
      exact List.countP_pos.mp h2'
    rcases hrow with ⟨r, hr, hpred⟩
    have hpred' := hpred
    rw [Bool.and_eq_true, Bool.and_eq_true] at hpred'
    have hrc : r.comp_id = comp := by
      have := hpred'.1
      simpa using this
    have hrcl : r.climber_id = cl := by
      have := hpred'.2.1
      simpa using this
    have hcomp : ':' ∉ comp.data := by
      rw [← hrc]
      exact (hcolon r hr).1
    have hg := psClimberTops_get_none results [] cl comp hcomp hcolon rfl
    rw [← hPT] at hg
    rw [if_neg (by omega)] at hg
    have hpmem : (comp ++ ":" ++ cl,
        (⟨cl, comp, topCount results cl comp⟩ : TopRec)) ∈ psClimberTops results :=
      (jmGet_iff_mem_nodup _ (nodupKeys_psClimberTops results) _ _).mp hg
    refine ⟨(comp ++ ":" ++ cl, ⟨cl, comp, topCount results cl comp⟩), hpmem,
      c, h1, ?_, ?_, ?_⟩
    · exact h3
    · rw [← h3]
      exact h2
    · rw [he, ← h3]

theorem perfectWinners_iff (results : List ResultRow) (stats : JMap ClimberStats)
    (hsome : ∀ e ∈ perfectEntries results stats, e.attempts.isSome = true)
    (w : PerfectEntry) :
    w ∈ perfectWinners results stats
      ↔ (w ∈ perfectEntries results stats
         ∧ ∀ x ∈ perfectEntries results stats,
             optLe w.attempts x.attempts = true) := by
  unfold perfectWinners
  rcases hs : perfectSorted results stats with _ | ⟨c0, rest⟩
  · have hperm := insSortBy_perm
      (fun a b : PerfectEntry => optLe a.attempts b.attempts)
      (perfectEntries results stats)
    unfold perfectSorted at hs
    rw [hs] at hperm
    have hnil : perfectEntries results stats = [] := hperm.symm.eq_nil
    rw [hnil]
    simp
  · have hs' : insSortBy (fun a b : PerfectEntry => optLe a.attempts b.attempts)
        (perfectEntries results stats) = c0 :: rest := by
      unfold perfectSorted at hs
      exact hs
    have hperm := insSortBy_perm
      (fun a b : PerfectEntry => optLe a.attempts b.attempts)
      (perfectEntries results stats)
    rw [hs'] at hperm
    have hsomeall : ∀ x ∈ (c0 :: rest), x.attempts.isSome = true :=
      fun x hx => hsome x (hperm.mem_iff.mp hx)
    have hfe : (c0 :: rest).filter
          (fun x => optStrictEq x.attempts c0.attempts)
        = (c0 :: rest).filter
          (fun x => decide (x.attempts = c0.attempts)) :=
      List.filter_congr (fun x hx => optStrictEq_eq_decide _ _
        (hsomeall x hx) (hsomeall c0 (List.mem_cons_self c0 rest)))
    have hiff := winners_filter_iff (fun e : PerfectEntry => e.attempts)
      (perfectEntries results stats) c0 rest hs' w
    rw [← hfe] at hiff
    exact hiff

theorem ite_eq_cases {α : Type} {c : Prop} [Decidable c] {x y z : α}
    (h : (if c then x else y) = z) : z = x ∨ z = y := by
  by_cases hc : c
  · rw [if_pos hc] at h
    exact Or.inl h.symm
  · rw [if_neg hc] at h
    exact Or.inr h.symm

theorem perfectScoreAward_other (results : List ResultRow)
    (stats : JMap ClimberStats) (a : PerfectAward)
    (h : perfectScoreAward results stats = Except.ok (some a)) :
    a.other_comps_count
      = (perfectSorted results stats).length
        - (perfectWinners results stats).length := by
  unfold perfectScoreAward at h
  by_cases h0 : results.length > 0 ∧ stats.length > 0
  · rw [if_pos h0] at h
    by_cases h1 : (perfectGroups results stats).length > 0
    · rw [if_pos h1] at h
      rcases hs : perfectSorted results stats with _ | ⟨first, rest⟩
      · rw [hs] at h
        exact Except.noConfusion h
      · rw [hs] at h
        rcases hw : perfectWinners results stats with _ | ⟨w, ws⟩
        · rw [hw] at h
          exact Except.noConfusion h
        · rcases ws with _ | ⟨w2, ws'⟩
          · rw [hw] at h
            have h' := Option.some.inj (Except.ok.inj h)
            rw [← h']
            rfl
          · rw [hw] at h
            rcases ite_eq_cases h with h' | h'
            · have h'' := Option.some.inj (Except.ok.inj h'.symm)
              rw [← h'']
            · have h'' := Option.some.inj (Except.ok.inj h'.symm)
              rw [← h'']
    · rw [if_neg h1] at h
      exact Option.noConfusion (Except.ok.inj h)
  · rw [if_neg h0] at h
    exact Option.noConfusion (Except.ok.inj h)

/-- **C6.** The Perfect Score award: a (climber, competition) pair yields a
pooled perfect-score entry exactly when the climber is known and their top
count for that competition (duplicate rows summed) is positive and equals
the competition's distinct-boulder count; the winner set consists of the
pooled entries with the globally fewest attempts; and whenever the award
reports a winner, `other_comps_count` is the number of pooled qualifiers
excluded from the winner set.  Stated for colon-free ids (the `comp:climber`
Map keys are only injective then) and rows with parseable attempts
(non-NaN): a NaN fewest-attempts value instead empties the `===` winner
filter and the source throws at `overallWinners[0].boulders`
(main.js:975). -/
theorem perfect_score_spec (results : List ResultRow) (stats : JMap ClimberStats)
    (hcolon : ∀ r ∈ results, ':' ∉ r.comp_id.data ∧ ':' ∉ r.climber_id.data)
    (hatt : ∀ r ∈ results, (rowAttempts r).isSome = true) :
    (∀ e : PerfectEntry, e ∈ perfectEntries results stats
       ↔ ∃ cl comp : String, ∃ c : ClimberStats,
           jmGet stats cl = some c
           ∧ 0 < topCount results cl comp
           ∧ topCount results cl comp = distinctBoulders results comp
           ∧ e = ⟨c.climber_name, cl, comp, distinctBoulders results comp,
                  compAttempts results cl comp⟩)
    ∧ (∀ w : PerfectEntry, w ∈ perfectWinners results stats
         ↔ (w ∈ perfectEntries results stats
            ∧ ∀ x ∈ perfectEntries results stats,
                optLe w.attempts x.attempts = true))
    ∧ (∀ a : PerfectAward, perfectScoreAward results stats = Except.ok (some a) →
         a.other_comps_count
           = (perfectEntries results stats).length
             - (perfectWinners results stats).length) := by
  have hsome : ∀ e ∈ perfectEntries results stats, e.attempts.isSome = true := by
    intro e he
    rcases (perfectEntries_mem results stats hcolon e).mp he
      with ⟨cl, comp, c, _, _, _, heq⟩
    rw [heq]
    exact compAttempts_isSome results hatt cl comp
  refine ⟨fun e => perfectEntries_mem results stats hcolon e,
          fun w => perfectWinners_iff results stats hsome w, ?_⟩
  intro a ha
  have h1 := perfectScoreAward_other results stats a ha
  have h2 : (perfectSorted results stats).length
      = (perfectEntries results stats).length :=
    (insSortBy_perm _ _).length_eq
  rw [h1, h2]

theorem perfect_score_spec_witness :
    (∀ r ∈ c6Results, ':' ∉ r.comp_id.data ∧ ':' ∉ r.climber_id.data)
    ∧ (∀ r ∈ c6Results, (rowAttempts r).isSome = true)
    ∧ ((∀ e : PerfectEntry, e ∈ perfectEntries c6Results c6Stats
          ↔ ∃ cl comp : String, ∃ c : ClimberStats,
              jmGet c6Stats cl = some c
              ∧ 0 < topCount c6Results cl comp
              ∧ topCount c6Results cl comp = distinctBoulders c6Results comp
              ∧ e = ⟨c.climber_name, cl, comp, distinctBoulders c6Results comp,
                     compAttempts c6Results cl comp⟩)
       ∧ (∀ w : PerfectEntry, w ∈ perfectWinners c6Results c6Stats
            ↔ (w ∈ perfectEntries c6Results c6Stats
               ∧ ∀ x ∈ perfectEntries c6Results c6Stats,
                   optLe w.attempts x.attempts = true))
       ∧ (∀ a : PerfectAward,
            perfectScoreAward c6Results c6Stats = Except.ok (some a) →
            a.other_comps_count
              = (perfectEntries c6Results c6Stats).length
                - (perfectWinners c6Results c6Stats).length)) :=
  ⟨by decide, by decide, perfect_score_spec c6Results c6Stats (by decide) (by decide)⟩
